import Mathlib

/-!
# Verification of the spirentiqlib client library

A shallow embedding, in Lean 4, of the query-construction and
result-reshaping core of `spirenttestcenteriq.py` (the Python front-end
for the Spirent TestCenter IQ ReST API), together with theorems checking
the natural-language specification of the library against the code.

Machine-level conventions of the embedding:
* JSON values are modelled by the inductive type `JVal`.
* Python exceptions are modelled by the inductive type `PyErr`; fallible
  code returns `Except PyErr _`.
* Python dicts are modelled as insertion-ordered association lists;
  assignment to an existing key updates the value in place, assignment to
  a fresh key appends.
* The external HTTP transport (the `requests` module) is modelled by the
  documented behaviour of `Response.raise_for_status` (raises exactly for
  status codes 400-599) and `Response.json()` (raises when the body is
  not parseable JSON).
-/

/-- A JSON value, as produced by `response.json()` and consumed by the
result-reshaping helpers.  Numbers are modelled as integers (the claims
under check only involve integer cells). -/
inductive JVal where
  | str (s : String)
  | num (n : Int)
  | bool (b : Bool)
  | null
  | arr (elems : List JVal)
  | obj (fields : List (String × JVal))
deriving Repr

/-- The Python exceptions that the embedded code can raise. -/
inductive PyErr where
  | httpError (status : Nat)
  | jsonDecodeError
  | keyError (msg : String)
  | typeError (msg : String)
  | runtimeError (msg : JVal)
  | nameError (name : String)
  | indexError
deriving Repr

/-! ## Transport dispatch (`SpirentTestCenterIQ.__execute`) -/

/-- An HTTP response as seen by `SpirentTestCenterIQ.__execute` after the
`requests` call returns: the status code, and the body (`some j` when the
body is parseable JSON `j`, `none` otherwise). -/
structure HttpResponse where
  status_code : Nat
  body : Option JVal

/-- `requests.Response.raise_for_status`: raises `HTTPError` exactly for
4xx and 5xx status codes. -/
def raise_for_status (r : HttpResponse) : Except PyErr Unit :=
  if 400 ≤ r.status_code ∧ r.status_code < 600 then
    Except.error (PyErr.httpError r.status_code)
  else Except.ok ()

/-- `SpirentTestCenterIQ.__extract_json`: returns `response.json()`,
which raises a JSON decode error when the body is not parseable JSON.
(The `pkg_resources` version split only chooses between the property and
the method form of the same call.) -/
def extract_json (r : HttpResponse) : Except PyErr JVal :=
  match r.body with
  | some j => Except.ok j
  | none => Except.error PyErr.jsonDecodeError

/-- Python subscription `d[k]` on a parsed JSON value: a `KeyError` when
the object lacks the key, a `TypeError` when the value is not an object. -/
def jval_getitem (j : JVal) (k : String) : Except PyErr JVal :=
  match j with
  | JVal.obj fields =>
    match fields.find? (fun p => p.1 == k) with
    | some p => Except.ok p.2
    | none => Except.error (PyErr.keyError k)
  | _ => Except.error (PyErr.typeError "value is not subscriptable")

/-- The error-translation part of `SpirentTestCenterIQ.__execute`
(everything after the `requests` call).  The source is

```
try:
    response.raise_for_status()
except:
    try:
        responsedata = self.__extract_json(response)
        raise RuntimeError(responsedata['message'])
    except:
        pass
return(self.__extract_json(response))
```

Note that the `raise RuntimeError(...)` statement executes inside the
inner `try`, whose own bare `except: pass` therefore catches it (every
path through the inner block ends in an exception, and all of them are
swallowed); control then falls through to the final `return`.  The block
after that `return` in the source is unreachable and is not modelled. -/
def SpirentTestCenterIQ.execute_dispatch (r : HttpResponse) : Except PyErr JVal :=
  match raise_for_status r with
  | Except.ok _ => extract_json r
  | Except.error _ =>
    -- inner try: parse the body, look up 'message', raise RuntimeError
    let inner : Except PyErr Unit := do
      let responsedata ← extract_json r
      let msg ← jval_getitem responsedata "message"
      Except.error (PyErr.runtimeError msg)
    match inner with
    | Except.ok _ => extract_json r
    | Except.error _ => extract_json r   -- `except: pass`, then fall through

/-! ## Database lookup (`SpirentTestCenterIQ.find_db_by_name`) -/

/-- The slice of an `IqDatabase` handle consulted by `find_db_by_name`.
`last_updated` is the instant obtained from `dateutil.parser.parse` of
the ISO `last_updated` string; the external parser is modelled as an
order-embedding into abstract instants, represented by `Nat`. -/
structure IqDb where
  id : String
  name : String
  last_updated : Nat
deriving Repr, DecidableEq

/-- The loop body of `find_db_by_name`: scan over `db_list`, keeping the
current best match (`current_db`) and updating it exactly when a matching
database has a strictly later parsed `last_updated` instant. -/
def SpirentTestCenterIQ.findDbAux (name : String) :
    Option IqDb → List IqDb → Option IqDb
  | acc, [] => acc
  | acc, db :: rest =>
    if db.name == name then
      match acc with
      | none => SpirentTestCenterIQ.findDbAux name (some db) rest
      | some cur =>
        if cur.last_updated < db.last_updated then
          SpirentTestCenterIQ.findDbAux name (some db) rest
        else
          SpirentTestCenterIQ.findDbAux name (some cur) rest
    else SpirentTestCenterIQ.findDbAux name acc rest

/-- `SpirentTestCenterIQ.find_db_by_name`: returns the latest database
object that matches the specified name (`None` when nothing matches). -/
def SpirentTestCenterIQ.find_db_by_name (db_list : List IqDb) (name : String) :
    Option IqDb :=
  SpirentTestCenterIQ.findDbAux name none db_list

/-- Specification-side description of the amended C2 behaviour: among the
name matches, the result is the first-iterated database attaining the
maximal `last_updated` instant (combining head-first, ties prefer the
earlier element). -/
def firstLatest : List IqDb → Option IqDb
  | [] => none
  | d :: rest =>
    match firstLatest rest with
    | none => some d
    | some b => if b.last_updated ≤ d.last_updated then some d else some b

/-- Merge of an already-held candidate with the best of the remainder:
the held candidate wins ties (it was iterated earlier). -/
def mergeAcc : Option IqDb → Option IqDb → Option IqDb
  | none, r => r
  | some a, none => some a
  | some a, some b => if a.last_updated < b.last_updated then some b else some a

@[simp] theorem mergeAcc_none (r : Option IqDb) : mergeAcc none r = r := by
  cases r <;> rfl

@[simp] theorem mergeAcc_some_none (a : IqDb) : mergeAcc (some a) none = some a := rfl

@[simp] theorem mergeAcc_some_some (a b : IqDb) :
    mergeAcc (some a) (some b) =
      if a.last_updated < b.last_updated then some b else some a := rfl

theorem firstLatest_cons_of_none (d : IqDb) (rest : List IqDb)
    (h : firstLatest rest = none) : firstLatest (d :: rest) = some d := by
  simp [firstLatest, h]

theorem firstLatest_cons_of_some (d b : IqDb) (rest : List IqDb)
    (h : firstLatest rest = some b) :
    firstLatest (d :: rest) =
      if b.last_updated ≤ d.last_updated then some d else some b := by
  simp [firstLatest, h]

theorem findDbAux_eq_mergeAcc (name : String) :
    ∀ (l : List IqDb) (acc : Option IqDb),
      SpirentTestCenterIQ.findDbAux name acc l =
        mergeAcc acc (firstLatest (l.filter (fun db => db.name == name))) := by
  intro l
  induction l with
  | nil =>
    intro acc
    cases acc <;> simp [SpirentTestCenterIQ.findDbAux, List.filter, firstLatest]
  | cons d rest ih =>
    intro acc
    cases hd : (d.name == name) with
    | false =>
      simp only [SpirentTestCenterIQ.findDbAux, hd, List.filter_cons,
        Bool.false_eq_true, if_false]
      exact ih acc
    | true =>
      rw [List.filter_cons, if_pos (by simp [hd])]
      cases hfl : firstLatest (rest.filter (fun db => db.name == name)) with
      | none =>
        rw [firstLatest_cons_of_none _ _ hfl]
        cases acc with
        | none =>
          simp only [SpirentTestCenterIQ.findDbAux, hd, if_true, mergeAcc_none]
          rw [ih (some d), hfl, mergeAcc_some_none]
        | some a =>
          simp only [SpirentTestCenterIQ.findDbAux, hd, if_true, mergeAcc_some_some]
          by_cases hlt : a.last_updated < d.last_updated
          · rw [if_pos hlt, if_pos hlt, ih (some d), hfl, mergeAcc_some_none]
          · rw [if_neg hlt, if_neg hlt, ih (some a), hfl, mergeAcc_some_none]
      | some b =>
        rw [firstLatest_cons_of_some _ _ _ hfl]
        cases acc with
        | none =>
          simp only [SpirentTestCenterIQ.findDbAux, hd, if_true, mergeAcc_none]
          rw [ih (some d), hfl, mergeAcc_some_some]
          split_ifs <;> first | rfl | (exfalso; omega)
        | some a =>
          simp only [SpirentTestCenterIQ.findDbAux, hd, if_true]
          by_cases hlt : a.last_updated < d.last_updated
          · rw [if_pos hlt, ih (some d), hfl, mergeAcc_some_some]
            by_cases h1 : b.last_updated ≤ d.last_updated
            · rw [if_pos h1, mergeAcc_some_some]
              split_ifs <;> first | rfl | (exfalso; omega)
            · rw [if_neg h1, mergeAcc_some_some]
              split_ifs <;> first | rfl | (exfalso; omega)
          · rw [if_neg hlt, ih (some a), hfl, mergeAcc_some_some]
            by_cases h1 : b.last_updated ≤ d.last_updated
            · rw [if_pos h1, mergeAcc_some_some]
              split_ifs <;> first | rfl | (exfalso; omega)
            · rw [if_neg h1, mergeAcc_some_some]

theorem firstLatest_none_eq_nil : ∀ (l : List IqDb), firstLatest l = none → l = [] := by
  intro l h
  cases l with
  | nil => rfl
  | cons x rest =>
    exfalso
    cases hfl : firstLatest rest with
    | none => rw [firstLatest_cons_of_none _ _ hfl] at h; exact Option.noConfusion h
    | some b =>
      rw [firstLatest_cons_of_some _ _ _ hfl] at h
      by_cases h1 : b.last_updated ≤ x.last_updated
      · rw [if_pos h1] at h; exact Option.noConfusion h
      · rw [if_neg h1] at h; exact Option.noConfusion h

theorem firstLatest_mem : ∀ (l : List IqDb) (d : IqDb), firstLatest l = some d → d ∈ l := by
  intro l
  induction l with
  | nil => intro d h; simp [firstLatest] at h
  | cons x rest ih =>
    intro d h
    cases hfl : firstLatest rest with
    | none =>
      rw [firstLatest_cons_of_none _ _ hfl] at h
      simp only [Option.some.injEq] at h
      subst h
      exact List.mem_cons_self _ _
    | some b =>
      rw [firstLatest_cons_of_some _ _ _ hfl] at h
      by_cases h1 : b.last_updated ≤ x.last_updated
      · rw [if_pos h1] at h
        simp only [Option.some.injEq] at h
        subst h
        exact List.mem_cons_self _ _
      · rw [if_neg h1] at h
        simp only [Option.some.injEq] at h
        subst h
        exact List.mem_cons_of_mem _ (ih _ hfl)

theorem firstLatest_max : ∀ (l : List IqDb) (d : IqDb), firstLatest l = some d →
    ∀ x ∈ l, x.last_updated ≤ d.last_updated := by
  intro l
  induction l with
  | nil => intro d h; simp [firstLatest] at h
  | cons x rest ih =>
    intro d h y hy
    cases hfl : firstLatest rest with
    | none =>
      rw [firstLatest_cons_of_none _ _ hfl] at h
      simp only [Option.some.injEq] at h
      subst h
      rcases List.mem_cons.mp hy with rfl | hy'
      · exact Nat.le_refl _
      · rw [firstLatest_none_eq_nil rest hfl] at hy'
        simp at hy'
    | some b =>
      rw [firstLatest_cons_of_some _ _ _ hfl] at h
      rcases List.mem_cons.mp hy with rfl | hy'
      · by_cases h1 : b.last_updated ≤ y.last_updated
        · rw [if_pos h1] at h
          simp only [Option.some.injEq] at h
          subst h
          exact Nat.le_refl _
        · rw [if_neg h1] at h
          simp only [Option.some.injEq] at h
          subst h
          omega
      · have hb := ih _ hfl y hy'
        by_cases h1 : b.last_updated ≤ x.last_updated
        · rw [if_pos h1] at h
          simp only [Option.some.injEq] at h
          subst h
          omega
        · rw [if_neg h1] at h
          simp only [Option.some.injEq] at h
          subst h
          exact hb

/-- C1: for a non-2xx HTTP response whose body is parseable JSON carrying a
`message` field, the transport dispatcher `__execute` does NOT fail: the
`RuntimeError` it raises is caught by the inner `except: pass` of the same
`try` block, and the call falls through and returns the parsed error body
as a normal result.  This contradicts the claim (and the code's own intent,
stated in its comment) that the call never returns normally on a non-2xx
status. -/
theorem execute_non2xx_returns_normally :
    SpirentTestCenterIQ.execute_dispatch
        { status_code := 404,
          body := some (JVal.obj [("message", JVal.str "Database not found")]) }
      = Except.ok (JVal.obj [("message", JVal.str "Database not found")]) := rfl

/-- C2 counterexample: two databases with the same name and equal
`last_updated` instants.  `find_db_by_name` keeps the FIRST-iterated
match (the update guard is a strict `<`), not the last-iterated one as
the claim states. -/
theorem find_db_by_name_tie_keeps_first :
    SpirentTestCenterIQ.find_db_by_name
        [{ id := "id1", name := "A", last_updated := 5 },
         { id := "id2", name := "A", last_updated := 5 }] "A"
      = some { id := "id1", name := "A", last_updated := 5 }
    ∧ ({ id := "id1", name := "A", last_updated := 5 } : IqDb)
      ≠ { id := "id2", name := "A", last_updated := 5 } := by
  exact ⟨rfl, by decide⟩

/-- C2 amended: `find_db_by_name` returns the name match whose parsed
`last_updated` instant is maximal, and among equally-latest matches the
FIRST-iterated match in the list wins (`firstLatest` picks the earliest
element attaining the maximum — see `firstLatest_mem` / `firstLatest_max`
/ `firstLatest_none_eq_nil`); it returns `none` when nothing matches. -/
theorem find_db_by_name_first_latest (db_list : List IqDb) (name : String) :
    SpirentTestCenterIQ.find_db_by_name db_list name =
      firstLatest (db_list.filter (fun db => db.name == name)) := by
  rw [SpirentTestCenterIQ.find_db_by_name, findDbAux_eq_mergeAcc, mergeAcc_none]

/-! ## Schema model (`IqSet`, `IqResultSet`, `IqDimensionSet`) -/

/-- The slice of an `IqSet` (and of an `IqDimensionSet`, which only
differs in reading its columns from the `attributes` key) used by the
projection builder: the set name and the ordered column-name list
produced by `populate_columns`. -/
structure IqSetData where
  name : String
  column_list : List String
deriving Repr, DecidableEq

/-- The pair of parallel lists returned by `get_columns_info`. -/
structure ColumnsInfo where
  projections : List String
  column_alias_list : List String
deriving Repr, DecidableEq

/-- `IqSet.get_full_column_name`. -/
def IqSet.get_full_column_name (s : IqSetData) (column : String) : String :=
  s.name ++ "." ++ column

/-- `IqSet.get_column_alias`. -/
def IqSet.get_column_alias (s : IqSetData) (column : String) : String :=
  s.name ++ "_" ++ column

/-- `IqSet.get_columns_info` (the base-class version, used by dimension
sets): one pass over `column_list`, appending a projection string and an
alias per column. -/
def IqSet.get_columns_info (s : IqSetData) : ColumnsInfo :=
  s.column_list.foldl
    (fun column_info column =>
      { projections := column_info.projections ++
          [IqSet.get_full_column_name s column ++ " AS " ++ IqSet.get_column_alias s column],
        column_alias_list := column_info.column_alias_list ++
          [IqSet.get_column_alias s column] })
    { projections := [], column_alias_list := [] }

/-- The slice of an `IqResultSet` used by the projection builder: its own
name and columns (from the `facts` key) plus the linked dimension sets,
as resolved by `refresh_related_set_info` (each contributing a name and a
column list). -/
structure IqResultSetData where
  name : String
  column_list : List String
  dimension_sets : List IqSetData
deriving Repr, DecidableEq

/-- `IqResultSet.get_full_column_name`: the `latest` form wraps the
vendor's `$last` windowing construct. -/
def IqResultSet.get_full_column_name (r : IqResultSetData) (column : String)
    (latest : Bool) : String :=
  if latest then "(" ++ r.name ++ "$last." ++ column ++ ")"
  else r.name ++ "." ++ column

/-- `get_column_alias` as inherited by `IqResultSet` from `IqSet`. -/
def IqResultSet.get_column_alias (r : IqResultSetData) (column : String) : String :=
  r.name ++ "_" ++ column

/-- `IqResultSet.get_columns_info`: its own columns first (with the
`latest`-dependent left-hand side), then, in declaration order, every
linked dimension set's columns in the plain (non-latest) form. -/
def IqResultSet.get_columns_info (r : IqResultSetData) (latest : Bool) : ColumnsInfo :=
  let own := r.column_list.foldl
    (fun column_info column =>
      { projections := column_info.projections ++
          [IqResultSet.get_full_column_name r column latest ++ " AS " ++
            IqResultSet.get_column_alias r column],
        column_alias_list := column_info.column_alias_list ++
          [IqResultSet.get_column_alias r column] })
    { projections := [], column_alias_list := [] }
  r.dimension_sets.foldl
    (fun column_info dimension_set =>
      dimension_set.column_list.foldl
        (fun ci column =>
          { projections := ci.projections ++
              [IqSet.get_full_column_name dimension_set column ++ " AS " ++
                IqSet.get_column_alias dimension_set column],
            column_alias_list := ci.column_alias_list ++
              [IqSet.get_column_alias dimension_set column] })
        column_info)
    own

/-- Characterization of the per-column append loop as a `map`. -/
theorem colFold_eq (full al : String → String) :
    ∀ (cols : List String) (init : ColumnsInfo),
      cols.foldl (fun column_info column =>
        { projections := column_info.projections ++ [full column ++ " AS " ++ al column],
          column_alias_list := column_info.column_alias_list ++ [al column] }) init
      = { projections := init.projections ++
            cols.map (fun c => full c ++ " AS " ++ al c),
          column_alias_list := init.column_alias_list ++ cols.map al } := by
  intro cols
  induction cols with
  | nil => intro init; simp
  | cons c cs ih =>
    intro init
    rw [List.foldl_cons, ih]
    simp

theorem IqSet.get_columns_info_eq (s : IqSetData) :
    IqSet.get_columns_info s =
      { projections := s.column_list.map
          (fun c => IqSet.get_full_column_name s c ++ " AS " ++ IqSet.get_column_alias s c),
        column_alias_list := s.column_list.map (IqSet.get_column_alias s) } := by
  rw [IqSet.get_columns_info, colFold_eq]
  simp

theorem IqResultSet.result_columns_info_eq (r : IqResultSetData) (latest : Bool) :
    IqResultSet.get_columns_info r latest =
      { projections := r.column_list.map
            (fun c => IqResultSet.get_full_column_name r c latest ++ " AS " ++
              IqResultSet.get_column_alias r c) ++
          (r.dimension_sets.map (fun d => d.column_list.map
            (fun c => IqSet.get_full_column_name d c ++ " AS " ++
              IqSet.get_column_alias d c))).flatten,
        column_alias_list := r.column_list.map (IqResultSet.get_column_alias r) ++
          (r.dimension_sets.map (fun d => d.column_list.map (IqSet.get_column_alias d))).flatten } := by
  rw [IqResultSet.get_columns_info]
  have hown := colFold_eq (fun c => IqResultSet.get_full_column_name r c latest)
    (IqResultSet.get_column_alias r) r.column_list { projections := [], column_alias_list := [] }
  rw [hown]
  generalize r.column_list.map
      (fun c => IqResultSet.get_full_column_name r c latest ++ " AS " ++
        IqResultSet.get_column_alias r c) = po
  generalize r.column_list.map (IqResultSet.get_column_alias r) = ao
  simp only [List.nil_append]
  induction r.dimension_sets generalizing po ao with
  | nil => simp
  | cons d ds ih =>
    rw [List.foldl_cons, colFold_eq]
    rw [ih (po ++ d.column_list.map
          (fun c => IqSet.get_full_column_name d c ++ " AS " ++ IqSet.get_column_alias d c))
        (ao ++ d.column_list.map (IqSet.get_column_alias d))]
    simp

theorem IqSet.get_column_alias_def (s : IqSetData) :
    IqSet.get_column_alias s = fun c => s.name ++ "_" ++ c := rfl

theorem IqResultSet.result_column_alias_def (r : IqResultSetData) :
    IqResultSet.get_column_alias r = fun c => r.name ++ "_" ++ c := rfl

/-- C5: for any Set with columns `[c1..cn]`, `get_columns_info` yields the
`n` projections `"<set>.<ci> AS <set>_<ci>"` in declaration order with the
parallel alias list `[<set>_<ci>]`; on a ResultSet, `latest := true`
changes only the left-hand side of its own columns' projections to
`"(<set>$last.<ci>)"` (the alias list is unchanged), and a ResultSet
additionally appends, after its own columns and in dimension-set
declaration order, each linked DimensionSet's columns in the non-latest
form. -/
theorem get_columns_info_shape :
    (∀ s : IqSetData,
      (IqSet.get_columns_info s).projections =
          s.column_list.map (fun c => s.name ++ "." ++ c ++ " AS " ++ (s.name ++ "_" ++ c))
        ∧ (IqSet.get_columns_info s).column_alias_list =
          s.column_list.map (fun c => s.name ++ "_" ++ c))
    ∧ (∀ (r : IqResultSetData) (latest : Bool),
      (IqResultSet.get_columns_info r latest).projections =
          r.column_list.map (fun c =>
            (if latest then "(" ++ r.name ++ "$last." ++ c ++ ")" else r.name ++ "." ++ c)
              ++ " AS " ++ (r.name ++ "_" ++ c))
          ++ (r.dimension_sets.map (fun d => d.column_list.map
                (fun c => d.name ++ "." ++ c ++ " AS " ++ (d.name ++ "_" ++ c)))).flatten
        ∧ (IqResultSet.get_columns_info r latest).column_alias_list =
          r.column_list.map (fun c => r.name ++ "_" ++ c)
          ++ (r.dimension_sets.map (fun d =>
                d.column_list.map (fun c => d.name ++ "_" ++ c))).flatten) := by
  constructor
  · intro s
    rw [IqSet.get_columns_info_eq]
    constructor <;>
      simp [IqSet.get_full_column_name, IqSet.get_column_alias_def]
  · intro r latest
    rw [IqResultSet.result_columns_info_eq]
    constructor <;>
      simp [IqResultSet.get_full_column_name, IqResultSet.result_column_alias_def,
        IqSet.get_full_column_name, IqSet.get_column_alias_def]

/-! ## Set-list refresh and forward-reference resolution (`IqDatabase`) -/

/-- The `dimension_sets` entry of the database metadata: a set name and
the `attributes` column list. -/
structure DimensionSetInfo where
  name : String
  attributes : List String
deriving Repr, DecidableEq

/-- The `result_sets` entry of the database metadata: a set name, the
`facts` column list, the names of the linked dimension sets, and the
optional primary dimension-set name. -/
structure ResultSetInfo where
  name : String
  facts : List String
  dimension_sets : List String
  primary_dimension_set : Option String
deriving Repr, DecidableEq

/-- A set object as constructed by the first pass of `refresh_set_list`
(`IqResultSet(...)` / `IqDimensionSet(...)`), before cross references are
resolved. -/
inductive IqSetHandle where
  | result (info : ResultSetInfo)
  | dimension (info : DimensionSetInfo)
deriving Repr, DecidableEq

/-- The `name` attribute shared by both set classes. -/
def IqSetHandle.name : IqSetHandle → String
  | IqSetHandle.result info => info.name
  | IqSetHandle.dimension info => info.name

/-- `IqDatabase.find_set_by_name`: linear scan over the flat set-list,
first match wins, `None` when absent. -/
def IqDatabase.find_set_by_name (set_list : List IqSetHandle) (name : String) :
    Option IqSetHandle :=
  match set_list with
  | [] => none
  | s :: rest =>
    if s.name == name then some s else IqDatabase.find_set_by_name rest name

/-- An `IqResultSet` after `refresh_related_set_info` ran: each named
dimension-set reference replaced by the result of `find_set_by_name`
(which may be `none` for a dangling name). -/
structure ResolvedResultSet where
  info : ResultSetInfo
  dimension_sets : List (Option IqSetHandle)
  primary_dimension_set : Option IqSetHandle
deriving Repr, DecidableEq

/-- `IqResultSet.refresh_related_set_info`: the second pass, executed only
after the whole set-list exists; resolves every name in the metadata's
`dimension_sets` list and the `primary_dimension_set` name against the
full set-list.  (With no `primary_dimension_set` key, the source passes
`None` to `find_set_by_name`, which matches no set name.) -/
def IqResultSet.refresh_related_set_info (set_list : List IqSetHandle)
    (info : ResultSetInfo) : ResolvedResultSet :=
  { info := info
    dimension_sets := info.dimension_sets.map (IqDatabase.find_set_by_name set_list)
    primary_dimension_set :=
      match info.primary_dimension_set with
      | none => none
      | some n => IqDatabase.find_set_by_name set_list n }

/-- A member of the set-list after the refresh completed. -/
inductive IqResolvedSet where
  | result (r : ResolvedResultSet)
  | dimension (d : DimensionSetInfo)
deriving Repr, DecidableEq

/-- `IqDatabase.refresh_set_list` as invoked from `refresh()` (which has
just reset the cached lists): construct an `IqResultSet` per `result_sets`
entry and an `IqDimensionSet` per `dimension_sets` entry, in declaration
order; concatenate into the flat set-list; and only then run the second
pass `refresh_related_set_info` on every set of the full list (a no-op
for dimension sets). -/
def IqDatabase.refresh_set_list (result_sets : List ResultSetInfo)
    (dimension_sets : List DimensionSetInfo) : List IqResolvedSet :=
  let set_list := result_sets.map IqSetHandle.result ++
    dimension_sets.map IqSetHandle.dimension
  set_list.map (fun h =>
    match h with
    | IqSetHandle.result info =>
      IqResolvedSet.result (IqResultSet.refresh_related_set_info set_list info)
    | IqSetHandle.dimension d => IqResolvedSet.dimension d)

theorem find_set_by_name_append_no_match (l1 l2 : List IqSetHandle) (n : String)
    (h : ∀ s ∈ l1, s.name ≠ n) :
    IqDatabase.find_set_by_name (l1 ++ l2) n = IqDatabase.find_set_by_name l2 n := by
  induction l1 with
  | nil => rfl
  | cons s rest ih =>
    rw [List.cons_append, IqDatabase.find_set_by_name]
    rw [if_neg (by simpa using h s (List.mem_cons_self _ _))]
    exact ih (fun x hx => h x (List.mem_cons_of_mem _ hx))

theorem find_set_by_name_dimension_map (dss : List DimensionSetInfo) (n : String) :
    IqDatabase.find_set_by_name (dss.map IqSetHandle.dimension) n =
      (dss.find? (fun x => x.name == n)).map IqSetHandle.dimension := by
  induction dss with
  | nil => rfl
  | cons d rest ih =>
    rw [List.map_cons, IqDatabase.find_set_by_name, List.find?]
    by_cases hd : d.name == n
    · rw [if_pos (by simpa [IqSetHandle.name] using hd), hd]
      rfl
    · rw [if_neg (by simpa [IqSetHandle.name] using hd)]
      rw [Bool.of_not_eq_true hd]
      exact ih

/-- C9: after `refresh_set_list` completes, every ResultSet in the
produced set-list has its named dimension-set references (including the
primary one) resolved against the complete flat set-list, so a name that
designates a DimensionSet — an object constructed and appended AFTER all
ResultSets, i.e. a forward reference — resolves to that actual
DimensionSet object. -/
theorem refresh_set_list_resolves_forward_refs
    (result_sets : List ResultSetInfo) (dimension_sets : List DimensionSetInfo)
    (n : String) (d : DimensionSetInfo)
    (hd : dimension_sets.find? (fun x => x.name == n) = some d)
    (hno : ∀ r ∈ result_sets, r.name ≠ n) :
    ∀ rs, IqResolvedSet.result rs ∈
        IqDatabase.refresh_set_list result_sets dimension_sets →
      (∀ i, rs.info.dimension_sets.get? i = some n →
        rs.dimension_sets.get? i = some (some (IqSetHandle.dimension d)))
      ∧ (rs.info.primary_dimension_set = some n →
        rs.primary_dimension_set = some (IqSetHandle.dimension d)) := by
  intro rs hmem
  have hfind : IqDatabase.find_set_by_name
      (result_sets.map IqSetHandle.result ++ dimension_sets.map IqSetHandle.dimension) n
      = some (IqSetHandle.dimension d) := by
    rw [find_set_by_name_append_no_match]
    · rw [find_set_by_name_dimension_map, hd]
      rfl
    · intro s hs
      rcases List.mem_map.mp hs with ⟨r, hr, rfl⟩
      simpa [IqSetHandle.name] using hno r hr
  rw [IqDatabase.refresh_set_list] at hmem
  rcases List.mem_map.mp hmem with ⟨h0, _, heq⟩
  cases h0 with
  | dimension d0 => exact absurd heq (by simp)
  | result info =>
    have hrs : rs = IqResultSet.refresh_related_set_info
        (result_sets.map IqSetHandle.result ++ dimension_sets.map IqSetHandle.dimension)
        info := by
      have := heq
      simp only [IqResolvedSet.result.injEq] at this
      exact this.symm
    subst hrs
    constructor
    · intro i hi
      rw [IqResultSet.refresh_related_set_info]
      simp only [List.get?_map]
      rw [show (IqResultSet.refresh_related_set_info _ info).info = info from rfl] at hi
      rw [hi]
      simp [hfind]
    · intro hp
      rw [IqResultSet.refresh_related_set_info]
      rw [show (IqResultSet.refresh_related_set_info _ info).info = info from rfl] at hp
      simp only [hp]
      exact hfind

/-- Concrete instance for the C9 witness: one result set referencing, by
name, a dimension set that appears after it in the flat set-list. -/
def c9_rs_info : ResultSetInfo :=
  { name := "rs", facts := ["f1"], dimension_sets := ["ds1"],
    primary_dimension_set := some "ds1" }

def c9_ds_info : DimensionSetInfo := { name := "ds1", attributes := ["a1"] }

theorem refresh_set_list_resolves_forward_refs_witness :
    (IqResultSet.refresh_related_set_info
        [IqSetHandle.result c9_rs_info, IqSetHandle.dimension c9_ds_info]
        c9_rs_info).dimension_sets.get? 0
      = some (some (IqSetHandle.dimension c9_ds_info)) := by
  have h := refresh_set_list_resolves_forward_refs [c9_rs_info] [c9_ds_info]
    "ds1" c9_ds_info (by decide) (by decide)
    (IqResultSet.refresh_related_set_info
      [IqSetHandle.result c9_rs_info, IqSetHandle.dimension c9_ds_info] c9_rs_info)
    (by decide)
  exact h.1 0 (by decide)

/-! ## Query builder (`IqQuery`, `IqSingleQuery`, `IqMultiQuery`) -/

/-- The `timestamp_range` state of a query: `{}`, an absolute range with
independently optional `start` and `end` fields, or a relative ISO-8601
duration. -/
inductive TsRange where
  | empty
  | absolute (start stop : Option String)
  | relative (interval : String)
deriving Repr, DecidableEq

/-- The value stored under one key of an emitted query dict. -/
inductive QVal where
  | optStr (v : Option String)
  | strs (v : List String)
  | tsr (v : TsRange)
  | optInt (v : Option Int)
  | subs (v : List (List (String × QVal)))
deriving Repr

/-- An emitted query dict: an insertion-ordered association list. -/
abbrev QueryDict := List (String × QVal)

/-- The mutable state of a plain `IqQuery` (set in `__init__` and by the
`add_*` methods).  `limit` and `pagination` are always `None` in the
source (`add_limit` / `add_pagination` are empty). -/
structure IqQueryState where
  name : Option String
  filters : List String
  groups : List String
  orders : List String
  timestamp_range : TsRange
  limit : Option Int
  pagination : Option Int
deriving Repr

/-- `IqQuery.get_query`: the base query dict, in insertion order. -/
def IqQuery.get_query (q : IqQueryState) : QueryDict :=
  [("alias", QVal.optStr q.name),
   ("filters", QVal.strs q.filters),
   ("groups", QVal.strs q.groups),
   ("orders", QVal.strs q.orders),
   ("timestamp_range", QVal.tsr q.timestamp_range),
   ("limit", QVal.optInt q.limit),
   ("pagination", QVal.optInt q.pagination)]

/-- The module-level global names of `spirenttestcenteriq.py`: the
imported modules and names, the module dunder attributes, and the
top-level function and class definitions.  (Python's final fallback
scope, the builtins, contains no name `group` either.) -/
def module_global_names : List String :=
  ["sys", "os", "time", "datetime", "pkg_resources", "json", "re", "copy",
   "csv", "dateutil", "LooseVersion", "requests", "pprint",
   "__author__", "__copyright__", "__credits__", "__version__",
   "__maintainer__", "__email__", "__status__", "__name__", "__file__",
   "__doc__", "__builtins__", "__loader__", "__spec__", "__package__",
   "timeit", "deepupdate", "SpirentTestCenterIQ", "IqDatabase", "IqSet",
   "IqResultSet", "IqDimensionSet", "IqQuery", "IqSingleQuery",
   "IqMultiQuery"]

/-- Python name resolution inside a method body: local scope first, then
the module globals (then builtins, which bind none of the names relevant
here); an unbound name raises `NameError`. -/
def resolve_name (local_names : List String) (n : String) : Except PyErr Unit :=
  if local_names.contains n || module_global_names.contains n then Except.ok ()
  else Except.error (PyErr.nameError n)

/-- `IqQuery.add_order`: the body is `self.orders.append(group)`.
Evaluating the argument resolves the name `group` against the method's
local scope (`self`, `order`) and the module globals; no binding exists,
so the lookup raises `NameError` before the append can execute.  (The
`ok` branch is unreachable; it returns the state unchanged.) -/
def IqQuery.add_order (q : IqQueryState) (order : String) : Except PyErr IqQueryState :=
  match resolve_name ["self", "order"] "group" with
  | Except.error e => Except.error e
  | Except.ok _ => Except.ok q

/-- C10: every call to `add_order`, whatever the query state and argument,
raises a `NameError` for the undefined name `group`; no state results from
the call, so no order expression can ever be added through this method
(contrast `add_group`, which appends its own parameter). -/
theorem add_order_always_raises (q : IqQueryState) (order : String) :
    IqQuery.add_order q order = Except.error (PyErr.nameError "group") := rfl

/-- The state of an `IqSingleQuery` bound to a result set.  The
constructor sets `name` to the set name when no explicit name is given,
so `name` is a proper string (the builder concatenates it).  `iq_set` is
the bound set as found by `find_set_by_name`; only result sets are
usable here, because the base-class `get_columns_info` of a dimension
set accepts no `latest` argument. -/
structure IqSingleQueryState where
  name : String
  filters : List String
  groups : List String
  orders : List String
  timestamp_range : TsRange
  limit : Option Int
  pagination : Option Int
  iq_set : IqResultSetData
deriving Repr

/-- `IqSingleQuery.get_columns` after `refresh_columns_info(latest)` ran
(which `get_query` always does first): the alias list of the bound set. -/
def IqSingleQuery.get_columns (sq : IqSingleQueryState) (latest : Bool) : List String :=
  (IqResultSet.get_columns_info sq.iq_set latest).column_alias_list

/-- `IqSingleQuery.get_query`: `super().get_query()` followed by the
assignment of the `projections` key from the refreshed columns info. -/
def IqSingleQuery.get_query (sq : IqSingleQueryState) (latest : Bool) : QueryDict :=
  IqQuery.get_query
    { name := some sq.name, filters := sq.filters, groups := sq.groups,
      orders := sq.orders, timestamp_range := sq.timestamp_range,
      limit := sq.limit, pagination := sq.pagination }
  ++ [("projections", QVal.strs (IqResultSet.get_columns_info sq.iq_set latest).projections)]

/-- The state of an `IqMultiQuery`.  The inherited `timestamp_range`
field exists on the object (the `add_timestamp_range_*` methods are
inherited), but `IqMultiQuery.get_query` never reads it.  Sub-queries
are modelled as the single-result queries the constructor builds (nested
multi-queries can only be attached through `add_subqueries` and are not
needed by the claims under check). -/
structure IqMultiQueryState where
  name : Option String
  filters : List String
  groups : List String
  orders : List String
  timestamp_range : TsRange
  limit : Option Int
  pagination : Option Int
  subqueries : List IqSingleQueryState
  keys : List String
deriving Repr

/-- The loop state of `IqMultiQuery.get_query`: the built sub-query
dicts, the top-level projections, the de-duplication list `columns`, and
the per-key occurrence dict `key_dict`. -/
structure MultiLoopState where
  subqs : List QueryDict
  projections : List String
  columns : List String
  key_dict : List (String × List String)

/-- `key_dict[column].append(full_column)`, creating the entry first when
absent (insertion-ordered dict). -/
def keyDictAppend (kd : List (String × List String)) (k full : String) :
    List (String × List String) :=
  if kd.any (fun p => p.1 == k) then
    kd.map (fun p => if p.1 == k then (p.1, p.2 ++ [full]) else p)
  else kd ++ [(k, [full])]

/-- The body of the inner `for column in subquery.get_columns()` loop of
`IqMultiQuery.get_query`: de-duplicated projection collection, then key
occurrence collection, for one column. -/
def IqMultiQuery.colStep (keys : List String) (name : String)
    (st : MultiLoopState) (column : String) : MultiLoopState :=
  let full_column := name ++ "." ++ column
  let st1 :=
    if st.columns.contains column then st
    else { st with
           columns := st.columns ++ [column],
           projections := st.projections ++ [full_column ++ " AS " ++ column] }
  if keys.contains column then
    { st1 with key_dict := keyDictAppend st1.key_dict column full_column }
  else st1

/-- The inner `for column in subquery.get_columns()` loop. -/
def IqMultiQuery.colLoop (keys : List String) (name : String)
    (st : MultiLoopState) : List String → MultiLoopState
  | [] => st
  | column :: cols =>
    IqMultiQuery.colLoop keys name (IqMultiQuery.colStep keys name st column) cols

/-- One step of the outer `for subquery in self.subqueries` loop: build
the sub-query's dict, then scan its columns. -/
def IqMultiQuery.subLoop (keys : List String) (latest : Bool)
    (st : MultiLoopState) (sq : IqSingleQueryState) : MultiLoopState :=
  IqMultiQuery.colLoop keys sq.name
    { st with subqs := st.subqs ++ [IqSingleQuery.get_query sq latest] }
    (IqSingleQuery.get_columns sq latest)

/-- The outer loop over the sub-queries. -/
def IqMultiQuery.queryLoop (keys : List String) (latest : Bool)
    (st : MultiLoopState) : List IqSingleQueryState → MultiLoopState
  | [] => st
  | sq :: sqs =>
    IqMultiQuery.queryLoop keys latest (IqMultiQuery.subLoop keys latest st sq) sqs

/-- The two key-arity errors raised at multi-query build time. -/
inductive BuildErr where
  | keyNotJoinable (k : String)
  | keyAmbiguous (k : String)
deriving Repr, DecidableEq

/-- The final `for column in key_dict.keys()` loop: raise on the first
key whose occurrence list has length 1 (`KeyNotJoinable`) or more than 2
(`KeyAmbiguous`); otherwise append the equality filter
`key_dict[column][0] + "=" + key_dict[column][1]` per key, in insertion
order.  (Occurrence lists are non-empty by construction.) -/
def IqMultiQuery.keyFilters : List (String × List String) → Except BuildErr (List String)
  | [] => Except.ok []
  | (k, occs) :: rest =>
    if occs.length == 1 then Except.error (BuildErr.keyNotJoinable k)
    else if 2 < occs.length then Except.error (BuildErr.keyAmbiguous k)
    else
      match IqMultiQuery.keyFilters rest with
      | Except.error e => Except.error e
      | Except.ok fs => Except.ok ((occs.getD 0 "" ++ "=" ++ occs.getD 1 "") :: fs)

/-- `IqMultiQuery.get_query`: note that, unlike the single-query builder,
the emitted dict has no `timestamp_range` key; the auto-generated key
filters are appended to the caller-supplied filter list. -/
def IqMultiQuery.get_query (mq : IqMultiQueryState) (latest : Bool) :
    Except BuildErr QueryDict :=
  let st := IqMultiQuery.queryLoop mq.keys latest
    { subqs := [], projections := [], columns := [], key_dict := [] } mq.subqueries
  match IqMultiQuery.keyFilters st.key_dict with
  | Except.error e => Except.error e
  | Except.ok kfs =>
    Except.ok
      [("alias", QVal.optStr mq.name),
       ("filters", QVal.strs (mq.filters ++ kfs)),
       ("groups", QVal.strs mq.groups),
       ("orders", QVal.strs mq.orders),
       ("limit", QVal.optInt mq.limit),
       ("pagination", QVal.optInt mq.pagination),
       ("subqueries", QVal.subs st.subqs),
       ("projections", QVal.strs st.projections)]

/-! ## First-seen de-duplication order: helper lemmas -/

theorem contains_iff_mem (l : List String) (a : String) :
    l.contains a = true ↔ a ∈ l := by
  simp [List.contains]

theorem beq_comm_str (a b : String) : (a == b) = (b == a) := by
  rw [Bool.eq_iff_iff, beq_iff_eq, beq_iff_eq]
  exact eq_comm

/-- The columns of `cols` that are fresh with respect to `seen`, in
first-seen order — the shape in which the multi-query builder extends its
de-duplication list. -/
def newCols (seen : List String) : List String → List String
  | [] => []
  | c :: cs =>
    if seen.contains c then newCols seen cs else c :: newCols (seen ++ [c]) cs

theorem mem_newCols_iff :
    ∀ (L seen : List String) (k : String),
      k ∈ newCols seen L ↔ (k ∈ L ∧ ¬ k ∈ seen) := by
  intro L
  induction L with
  | nil => intro seen k; simp [newCols]
  | cons c cs ih =>
    intro seen k
    rw [newCols]
    by_cases hc : (seen.contains c) = true
    · rw [if_pos hc, ih]
      constructor
      · rintro ⟨h1, h2⟩
        exact ⟨List.mem_cons_of_mem _ h1, h2⟩
      · rintro ⟨hmem, h2⟩
        rcases List.mem_cons.mp hmem with rfl | h1
        · exact absurd ((contains_iff_mem _ _).mp hc) h2
        · exact ⟨h1, h2⟩
    · rw [if_neg hc]
      simp only [List.mem_cons]
      constructor
      · rintro (rfl | hk)
        · exact ⟨Or.inl rfl, fun hs => hc ((contains_iff_mem _ _).mpr hs)⟩
        · rcases (ih _ k).mp hk with ⟨h1, h2⟩
          exact ⟨Or.inr h1, fun hs => h2 (List.mem_append.mpr (Or.inl hs))⟩
      · rintro ⟨hmem, h2⟩
        by_cases hkc : k = c
        · exact Or.inl hkc
        · rcases hmem with rfl | h1
          · exact absurd rfl hkc
          · refine Or.inr ((ih _ k).mpr ⟨h1, ?_⟩)
            intro hs
            rcases List.mem_append.mp hs with hs1 | hs2
            · exact h2 hs1
            · exact hkc (by simpa using hs2)

theorem newCols_congr :
    ∀ (L seen1 seen2 : List String), (∀ x, x ∈ seen1 ↔ x ∈ seen2) →
      newCols seen1 L = newCols seen2 L := by
  intro L
  induction L with
  | nil => intro _ _ _; rfl
  | cons c cs ih =>
    intro s1 s2 h
    rw [newCols, newCols]
    have hc : (s1.contains c) = (s2.contains c) := by
      rw [Bool.eq_iff_iff, contains_iff_mem, contains_iff_mem]
      exact h c
    rw [hc]
    by_cases hb : (s2.contains c) = true
    · rw [if_pos hb, if_pos hb]
      exact ih _ _ h
    · rw [if_neg hb, if_neg hb]
      congr 1
      apply ih
      intro x
      simp only [List.mem_append]
      exact or_congr (h x) Iff.rfl

theorem newCols_seen_append_notmem :
    ∀ (L seen : List String) (c : String), ¬ c ∈ L →
      newCols (seen ++ [c]) L = newCols seen L := by
  intro L
  induction L with
  | nil => intro _ _ _; rfl
  | cons d ds ih =>
    intro seen c hc
    have hcd : c ≠ d := fun h => hc (h ▸ List.mem_cons_self _ _)
    have hcds : ¬ c ∈ ds := fun h => hc (List.mem_cons_of_mem _ h)
    rw [newCols, newCols]
    have hcon : ((seen ++ [c]).contains d) = (seen.contains d) := by
      rw [Bool.eq_iff_iff, contains_iff_mem, contains_iff_mem]
      simp [List.mem_append, Ne.symm hcd]
    rw [hcon]
    by_cases hb : (seen.contains d) = true
    · rw [if_pos hb, if_pos hb]
      exact ih _ _ hcds
    · rw [if_neg hb, if_neg hb]
      congr 1
      rw [newCols_congr ds ((seen ++ [c]) ++ [d]) ((seen ++ [d]) ++ [c])
        (by intro x; simp only [List.mem_append, List.mem_singleton]; tauto)]
      exact ih _ _ hcds

theorem newCols_append :
    ∀ (L1 L2 seen : List String),
      newCols seen (L1 ++ L2) =
        newCols seen L1 ++ newCols (seen ++ newCols seen L1) L2 := by
  intro L1
  induction L1 with
  | nil => intro L2 seen; simp [newCols]
  | cons c cs ih =>
    intro L2 seen
    rw [List.cons_append, newCols, newCols]
    by_cases hb : (seen.contains c) = true
    · rw [if_pos hb, if_pos hb]
      exact ih _ _
    · rw [if_neg hb, if_neg hb]
      rw [List.cons_append, ih]
      congr 2
      apply newCols_congr
      intro x
      simp only [List.mem_append, List.mem_cons, List.mem_singleton]
      tauto

theorem newCols_filter_of_nodup :
    ∀ (L : List String), L.Nodup → ∀ seen,
      newCols seen L = L.filter (fun c => !(seen.contains c)) := by
  intro L
  induction L with
  | nil => intro _ _; rfl
  | cons c cs ih =>
    intro h seen
    rcases List.nodup_cons.mp h with ⟨hc, hcs⟩
    rw [newCols, List.filter_cons]
    by_cases hb : (seen.contains c) = true
    · rw [if_pos hb, if_neg (show ¬((!(seen.contains c)) = true) by rw [hb]; decide),
        ih hcs]
    · have hb' : seen.contains c = false := by rwa [Bool.not_eq_true] at hb
      rw [if_neg hb, if_pos (show (!(seen.contains c)) = true by rw [hb']; rfl),
        newCols_seen_append_notmem _ _ _ hc, ih hcs]

/-! ## Characterization of the multi-query column scan -/

theorem colStep_subqs (keys : List String) (name : String)
    (st : MultiLoopState) (c : String) :
    (IqMultiQuery.colStep keys name st c).subqs = st.subqs := by
  simp only [IqMultiQuery.colStep]
  split_ifs <;> rfl

theorem colStep_columns (keys : List String) (name : String)
    (st : MultiLoopState) (c : String) :
    (IqMultiQuery.colStep keys name st c).columns =
      if st.columns.contains c then st.columns else st.columns ++ [c] := by
  simp only [IqMultiQuery.colStep]
  split_ifs <;> rfl

theorem colStep_projections (keys : List String) (name : String)
    (st : MultiLoopState) (c : String) :
    (IqMultiQuery.colStep keys name st c).projections =
      if st.columns.contains c then st.projections
      else st.projections ++ [name ++ "." ++ c ++ " AS " ++ c] := by
  simp only [IqMultiQuery.colStep]
  split_ifs <;> rfl

theorem colStep_key_dict (keys : List String) (name : String)
    (st : MultiLoopState) (c : String) :
    (IqMultiQuery.colStep keys name st c).key_dict =
      if keys.contains c then keyDictAppend st.key_dict c (name ++ "." ++ c)
      else st.key_dict := by
  simp only [IqMultiQuery.colStep]
  split_ifs <;> rfl

theorem colLoop_subqs (keys : List String) (name : String) :
    ∀ (cols : List String) (st : MultiLoopState),
      (IqMultiQuery.colLoop keys name st cols).subqs = st.subqs := by
  intro cols
  induction cols with
  | nil => intro st; rfl
  | cons c cs ih =>
    intro st
    rw [IqMultiQuery.colLoop, ih, colStep_subqs]

theorem colLoop_columns (keys : List String) (name : String) :
    ∀ (cols : List String) (st : MultiLoopState),
      (IqMultiQuery.colLoop keys name st cols).columns =
        st.columns ++ newCols st.columns cols := by
  intro cols
  induction cols with
  | nil => intro st; simp [IqMultiQuery.colLoop, newCols]
  | cons c cs ih =>
    intro st
    rw [IqMultiQuery.colLoop, ih, colStep_columns, newCols]
    by_cases hb : (st.columns.contains c) = true
    · rw [if_pos hb, if_pos hb]
    · rw [if_neg hb, if_neg hb]
      simp

theorem colLoop_projections (keys : List String) (name : String) :
    ∀ (cols : List String) (st : MultiLoopState),
      (IqMultiQuery.colLoop keys name st cols).projections =
        st.projections ++
          (newCols st.columns cols).map (fun c => name ++ "." ++ c ++ " AS " ++ c) := by
  intro cols
  induction cols with
  | nil => intro st; simp [IqMultiQuery.colLoop, newCols]
  | cons c cs ih =>
    intro st
    rw [IqMultiQuery.colLoop, ih, colStep_projections, colStep_columns, newCols]
    by_cases hb : (st.columns.contains c) = true
    · rw [if_pos hb, if_pos hb, if_pos hb]
    · rw [if_neg hb, if_neg hb, if_neg hb]
      simp

/-- The key-occurrence fold over the key columns of one sub-query, in the
shape left behind by the column scan. -/
def keyFoldF (name : String) (kd : List (String × List String)) :
    List String → List (String × List String)
  | [] => kd
  | c :: cs => keyFoldF name (keyDictAppend kd c (name ++ "." ++ c)) cs

theorem colLoop_key_dict (keys : List String) (name : String) :
    ∀ (cols : List String) (st : MultiLoopState),
      (IqMultiQuery.colLoop keys name st cols).key_dict =
        keyFoldF name st.key_dict (cols.filter (fun c => keys.contains c)) := by
  intro cols
  induction cols with
  | nil => intro st; rfl
  | cons c cs ih =>
    intro st
    rw [IqMultiQuery.colLoop, ih, colStep_key_dict, List.filter_cons]
    by_cases hb : (keys.contains c) = true
    · rw [if_pos hb, if_pos hb, keyFoldF]
    · rw [if_neg hb, if_neg hb]

theorem mapCongrMem {α β : Type} (l : List α) (f g : α → β)
    (h : ∀ a ∈ l, f a = g a) : l.map f = l.map g := by
  induction l with
  | nil => rfl
  | cons a as ih =>
    rw [List.map_cons, List.map_cons, h a (List.mem_cons_self _ _),
      ih (fun x hx => h x (List.mem_cons_of_mem _ hx))]

theorem any_fst_beq_iff (kd : List (String × List String)) (c : String) :
    (kd.any (fun p => p.1 == c)) = true ↔ c ∈ kd.map Prod.fst := by
  rw [List.any_eq_true]
  constructor
  · rintro ⟨p, hp, hbeq⟩
    exact List.mem_map.mpr ⟨p, hp, (beq_iff_eq.mp hbeq).symm ▸ rfl⟩
  · rintro hm
    rcases List.mem_map.mp hm with ⟨p, hp, hfst⟩
    exact ⟨p, hp, beq_iff_eq.mpr hfst⟩

theorem keyFoldF_eq (name : String) :
    ∀ (L : List String) (kd : List (String × List String)),
      keyFoldF name kd L =
        kd.map (fun p => (p.1,
            p.2 ++ (L.filter (fun c => c == p.1)).map (fun c => name ++ "." ++ c)))
        ++ (newCols (kd.map Prod.fst) L).map
            (fun k => (k, (L.filter (fun c => c == k)).map (fun c => name ++ "." ++ c))) := by
  intro L
  induction L with
  | nil =>
    intro kd
    simp [keyFoldF, newCols]
  | cons c cs ih =>
    intro kd
    rw [keyFoldF, ih, keyDictAppend]
    by_cases hany : (kd.any (fun p => p.1 == c)) = true
    · rw [if_pos hany]
      have hmem : c ∈ kd.map Prod.fst := (any_fst_beq_iff kd c).mp hany
      have hfst : (kd.map (fun p =>
          if p.1 == c then (p.1, p.2 ++ [name ++ "." ++ c]) else p)).map Prod.fst
          = kd.map Prod.fst := by
        rw [List.map_map]
        apply mapCongrMem
        intro p _
        show (if p.1 == c then (p.1, p.2 ++ [name ++ "." ++ c]) else p).1 = p.1
        split_ifs <;> rfl
      rw [List.map_map, hfst]
      have hfirst : kd.map ((fun p => (p.1,
            p.2 ++ (cs.filter (fun x => x == p.1)).map (fun x => name ++ "." ++ x))) ∘
            (fun p => if p.1 == c then (p.1, p.2 ++ [name ++ "." ++ c]) else p))
          = kd.map (fun p => (p.1,
            p.2 ++ (((c :: cs).filter (fun x => x == p.1)).map (fun x => name ++ "." ++ x)))) := by
        apply mapCongrMem
        intro p _
        by_cases hpc : (p.1 == c) = true
        · have hcp : (c == p.1) = true := by
            rw [beq_comm_str]; exact hpc
          have hc_eq : c = p.1 := beq_iff_eq.mp hcp
          simp only [Function.comp, hpc, if_pos, List.filter_cons, hcp, if_true,
            List.map_cons]
          subst hc_eq
          simp
        · have hcp : (c == p.1) = false := by
            rw [beq_comm_str]
            rwa [Bool.not_eq_true] at hpc
          simp only [Function.comp, List.filter_cons, hcp]
          rw [if_neg hpc, if_neg (by simp [hcp])]
      rw [hfirst]
      have hnew : newCols (kd.map Prod.fst) (c :: cs) = newCols (kd.map Prod.fst) cs := by
        rw [newCols, if_pos ((contains_iff_mem _ _).mpr hmem)]
      rw [hnew]
      congr 1
      apply mapCongrMem
      intro k hk
      have hkc : k ≠ c := by
        intro heq
        exact ((mem_newCols_iff _ _ _).mp hk).2 (heq ▸ hmem)
      have hck : (c == k) = false := by
        rw [beq_comm_str]
        exact beq_eq_false_iff_ne.mpr hkc
      rw [List.filter_cons, if_neg (by simp [hck])]
    · rw [if_neg hany]
      have hnm : ¬ c ∈ kd.map Prod.fst := fun h => hany ((any_fst_beq_iff kd c).mpr h)
      rw [List.map_append]
      have hfst2 : ((kd ++ [(c, [name ++ "." ++ c])]).map Prod.fst) =
          kd.map Prod.fst ++ [c] := by
        simp
      rw [hfst2]
      have hnew2 : newCols (kd.map Prod.fst) (c :: cs) =
          c :: newCols (kd.map Prod.fst ++ [c]) cs := by
        rw [newCols, if_neg (fun h => hnm ((contains_iff_mem _ _).mp h))]
      rw [hnew2]
      have hfirst2 : kd.map (fun p => (p.1,
            p.2 ++ (cs.filter (fun x => x == p.1)).map (fun x => name ++ "." ++ x)))
          = kd.map (fun p => (p.1,
            p.2 ++ (((c :: cs).filter (fun x => x == p.1)).map (fun x => name ++ "." ++ x)))) := by
        apply mapCongrMem
        intro p hp
        have hpc : p.1 ≠ c := by
          intro heq
          exact hnm (List.mem_map.mpr ⟨p, hp, heq⟩)
        have hck : (c == p.1) = false := beq_eq_false_iff_ne.mpr (Ne.symm hpc)
        rw [List.filter_cons, if_neg (by simp [hck])]
      have hsecond : ((newCols (kd.map Prod.fst ++ [c]) cs).map
            (fun k => (k, (cs.filter (fun x => x == k)).map (fun x => name ++ "." ++ x))))
          = ((newCols (kd.map Prod.fst ++ [c]) cs).map
            (fun k => (k, (((c :: cs).filter (fun x => x == k)).map
              (fun x => name ++ "." ++ x))))) := by
        apply mapCongrMem
        intro k hk
        have hkc : k ≠ c := by
          intro heq
          exact ((mem_newCols_iff _ _ _).mp hk).2
            (List.mem_append.mpr (Or.inr (by simp [heq])))
        have hck : (c == k) = false := by
          rw [beq_comm_str]
          exact beq_eq_false_iff_ne.mpr hkc
        rw [List.filter_cons, if_neg (by simp [hck])]
      rw [hfirst2, hsecond]
      rw [List.map_cons
        (fun k => (k, (((c :: cs).filter (fun x => x == k)).map (fun x => name ++ "." ++ x))))
        c (newCols (kd.map Prod.fst ++ [c]) cs)]
      rw [List.map_cons, List.map_nil]
      have hcc : (c == c) = true := beq_iff_eq.mpr rfl
      simp [List.filter_cons, hcc, List.append_assoc]

/-- The stream of key columns encountered across the sub-queries, in
iteration order. -/
def keyStream (keys : List String) (latest : Bool) :
    List IqSingleQueryState → List String
  | [] => []
  | sq :: sqs =>
    (IqSingleQuery.get_columns sq latest).filter (fun c => keys.contains c)
      ++ keyStream keys latest sqs

/-- The fully-qualified references collected for key column `k` across
the sub-queries, in iteration order. -/
def keyRefs (keys : List String) (latest : Bool) (k : String) :
    List IqSingleQueryState → List String
  | [] => []
  | sq :: sqs =>
    (((IqSingleQuery.get_columns sq latest).filter
        (fun c => keys.contains c)).filter (fun c => c == k)).map
      (fun c => sq.name ++ "." ++ c)
      ++ keyRefs keys latest k sqs

theorem subLoop_key_dict (keys : List String) (latest : Bool)
    (st : MultiLoopState) (sq : IqSingleQueryState) :
    (IqMultiQuery.subLoop keys latest st sq).key_dict =
      keyFoldF sq.name st.key_dict
        ((IqSingleQuery.get_columns sq latest).filter (fun c => keys.contains c)) := by
  rw [IqMultiQuery.subLoop, colLoop_key_dict]

theorem subLoop_subqs (keys : List String) (latest : Bool)
    (st : MultiLoopState) (sq : IqSingleQueryState) :
    (IqMultiQuery.subLoop keys latest st sq).subqs =
      st.subqs ++ [IqSingleQuery.get_query sq latest] := by
  rw [IqMultiQuery.subLoop, colLoop_subqs]

theorem subLoop_columns (keys : List String) (latest : Bool)
    (st : MultiLoopState) (sq : IqSingleQueryState) :
    (IqMultiQuery.subLoop keys latest st sq).columns =
      st.columns ++ newCols st.columns (IqSingleQuery.get_columns sq latest) := by
  rw [IqMultiQuery.subLoop, colLoop_columns]

theorem subLoop_projections (keys : List String) (latest : Bool)
    (st : MultiLoopState) (sq : IqSingleQueryState) :
    (IqMultiQuery.subLoop keys latest st sq).projections =
      st.projections ++
        (newCols st.columns (IqSingleQuery.get_columns sq latest)).map
          (fun c => sq.name ++ "." ++ c ++ " AS " ++ c) := by
  rw [IqMultiQuery.subLoop, colLoop_projections]

theorem queryLoop_subqs (keys : List String) (latest : Bool) :
    ∀ (sqs : List IqSingleQueryState) (st : MultiLoopState),
      (IqMultiQuery.queryLoop keys latest st sqs).subqs =
        st.subqs ++ sqs.map (fun sq => IqSingleQuery.get_query sq latest) := by
  intro sqs
  induction sqs with
  | nil => intro st; simp [IqMultiQuery.queryLoop]
  | cons sq sqs ih =>
    intro st
    rw [IqMultiQuery.queryLoop, ih, subLoop_subqs, List.map_cons]
    simp

theorem queryLoop_key_dict (keys : List String) (latest : Bool) :
    ∀ (sqs : List IqSingleQueryState) (st : MultiLoopState),
      (IqMultiQuery.queryLoop keys latest st sqs).key_dict =
        st.key_dict.map (fun p => (p.1, p.2 ++ keyRefs keys latest p.1 sqs))
        ++ (newCols (st.key_dict.map Prod.fst) (keyStream keys latest sqs)).map
            (fun k => (k, keyRefs keys latest k sqs)) := by
  intro sqs
  induction sqs with
  | nil =>
    intro st
    simp [IqMultiQuery.queryLoop, keyRefs, keyStream, newCols]
  | cons sq sqs ih =>
    intro st
    rw [IqMultiQuery.queryLoop, ih, subLoop_key_dict, keyFoldF_eq]
    rw [List.map_append, List.map_append]
    rw [List.map_map, List.map_map, List.map_map, List.map_map]
    have hA : st.key_dict.map ((fun p => (p.1, p.2 ++ keyRefs keys latest p.1 sqs)) ∘
        (fun p => (p.1, p.2 ++
          ((((IqSingleQuery.get_columns sq latest).filter
              (fun c => keys.contains c)).filter (fun c => c == p.1)).map
            (fun c => sq.name ++ "." ++ c)))))
        = st.key_dict.map (fun p => (p.1, p.2 ++ keyRefs keys latest p.1 (sq :: sqs))) := by
      apply mapCongrMem
      intro p _
      simp [Function.comp, keyRefs, List.append_assoc]
    have hB : ((newCols (st.key_dict.map Prod.fst)
        ((IqSingleQuery.get_columns sq latest).filter (fun c => keys.contains c))).map
        ((fun p => (p.1, p.2 ++ keyRefs keys latest p.1 sqs)) ∘
          (fun k => (k,
            ((((IqSingleQuery.get_columns sq latest).filter
                (fun c => keys.contains c)).filter (fun c => c == k)).map
              (fun c => sq.name ++ "." ++ c))))))
        = ((newCols (st.key_dict.map Prod.fst)
            ((IqSingleQuery.get_columns sq latest).filter (fun c => keys.contains c))).map
            (fun k => (k, keyRefs keys latest k (sq :: sqs)))) := by
      apply mapCongrMem
      intro k _
      simp [Function.comp, keyRefs]
    have hfstA : st.key_dict.map (Prod.fst ∘
        (fun p => (p.1, p.2 ++
          ((((IqSingleQuery.get_columns sq latest).filter
              (fun c => keys.contains c)).filter (fun c => c == p.1)).map
            (fun c => sq.name ++ "." ++ c)))))
        = st.key_dict.map Prod.fst := by
      apply mapCongrMem
      intro p _
      rfl
    have hfstB : ((newCols (st.key_dict.map Prod.fst)
        ((IqSingleQuery.get_columns sq latest).filter (fun c => keys.contains c))).map
        (Prod.fst ∘ (fun k => ((k,
          ((((IqSingleQuery.get_columns sq latest).filter
              (fun c => keys.contains c)).filter (fun c => c == k)).map
            (fun c => sq.name ++ "." ++ c))) : String × List String))))
        = newCols (st.key_dict.map Prod.fst)
            ((IqSingleQuery.get_columns sq latest).filter (fun c => keys.contains c)) := by
      rw [show (Prod.fst ∘ (fun k => ((k,
          ((((IqSingleQuery.get_columns sq latest).filter
              (fun c => keys.contains c)).filter (fun c => c == k)).map
            (fun c => sq.name ++ "." ++ c))) : String × List String))) = fun k => k from rfl]
      exact List.map_id _
    rw [hA, hB, hfstA, hfstB]
    rw [show keyStream keys latest (sq :: sqs) =
      (IqSingleQuery.get_columns sq latest).filter (fun c => keys.contains c)
        ++ keyStream keys latest sqs from rfl]
    rw [newCols_append, List.map_append]
    have hpart3 : ((newCols (st.key_dict.map Prod.fst ++
          newCols (st.key_dict.map Prod.fst)
            ((IqSingleQuery.get_columns sq latest).filter (fun c => keys.contains c)))
          (keyStream keys latest sqs)).map (fun k => (k, keyRefs keys latest k sqs)))
        = ((newCols (st.key_dict.map Prod.fst ++
            newCols (st.key_dict.map Prod.fst)
              ((IqSingleQuery.get_columns sq latest).filter (fun c => keys.contains c)))
            (keyStream keys latest sqs)).map
            (fun k => (k, keyRefs keys latest k (sq :: sqs)))) := by
      apply mapCongrMem
      intro k hk
      rcases (mem_newCols_iff _ _ _).mp hk with ⟨_, hnotin⟩
      have hkL : ¬ k ∈ (IqSingleQuery.get_columns sq latest).filter
          (fun c => keys.contains c) := by
        intro hkl
        by_cases hkfst : k ∈ st.key_dict.map Prod.fst
        · exact hnotin (List.mem_append.mpr (Or.inl hkfst))
        · exact hnotin (List.mem_append.mpr (Or.inr
            ((mem_newCols_iff _ _ _).mpr ⟨hkl, hkfst⟩)))
      have hfilter : ((IqSingleQuery.get_columns sq latest).filter
          (fun c => keys.contains c)).filter (fun c => c == k) = [] := by
        rw [List.filter_eq_nil]
        intro a ha hbeq
        exact hkL (beq_iff_eq.mp hbeq ▸ ha)
      show (k, keyRefs keys latest k sqs) = (k, keyRefs keys latest k (sq :: sqs))
      rw [show keyRefs keys latest k (sq :: sqs) =
        (((IqSingleQuery.get_columns sq latest).filter
          (fun c => keys.contains c)).filter (fun c => c == k)).map
          (fun c => sq.name ++ "." ++ c) ++ keyRefs keys latest k sqs from rfl]
      rw [hfilter, List.map_nil, List.nil_append]
    rw [hpart3, List.append_assoc]

/-! ## Key-arity analysis (`IqMultiQuery.keyFilters`) -/

theorem keyFilters_ok_of_all_two :
    ∀ kd : List (String × List String), (∀ p ∈ kd, p.2.length = 2) →
      IqMultiQuery.keyFilters kd =
        Except.ok (kd.map (fun p => p.2.getD 0 "" ++ "=" ++ p.2.getD 1 "")) := by
  intro kd
  induction kd with
  | nil => intro _; rfl
  | cons p rest ih =>
    intro h
    rcases p with ⟨k, occs⟩
    have h2 : occs.length = 2 := h (k, occs) (List.mem_cons_self _ _)
    rw [IqMultiQuery.keyFilters]
    rw [if_neg (show ¬((occs.length == 1) = true) by rw [h2]; decide)]
    rw [if_neg (show ¬(2 < occs.length) by omega)]
    rw [ih (fun q hq => h q (List.mem_cons_of_mem _ hq))]
    rfl

theorem keyFilters_error_of_find :
    ∀ kd : List (String × List String), (∀ p ∈ kd, p.2 ≠ []) →
      ∀ (k : String) (occs : List String),
        kd.find? (fun p => !(p.2.length == 2)) = some (k, occs) →
        IqMultiQuery.keyFilters kd =
          Except.error (if occs.length == 1 then BuildErr.keyNotJoinable k
            else BuildErr.keyAmbiguous k) := by
  intro kd
  induction kd with
  | nil => intro _ k occs h; exact absurd h (by simp)
  | cons p rest ih =>
    intro hne k occs hfind
    rw [List.find?_cons] at hfind
    by_cases hbad : (!(p.2.length == 2)) = true
    · rw [hbad] at hfind
      have hp : some p = some (k, occs) := hfind
      have hp2 : p = (k, occs) := by simpa using hp
      subst hp2
      rw [IqMultiQuery.keyFilters]
      by_cases h1 : (occs.length == 1) = true
      · rw [if_pos h1, if_pos h1]
      · have hlen2 : occs.length ≠ 2 := by
          intro hc
          rw [hc] at hbad
          exact absurd hbad (by decide)
        have hlen1 : occs.length ≠ 1 := by
          intro hc
          exact h1 (by rw [hc]; decide)
        have hlen0 : occs.length ≠ 0 := by
          intro hc
          exact hne (k, occs) (List.mem_cons_self _ _) (List.eq_nil_of_length_eq_zero hc)
        rw [if_neg h1, if_pos (by omega), if_neg h1]
    · have hbadf : (!(p.2.length == 2)) = false := by
        rcases Bool.eq_false_or_eq_true (!(p.2.length == 2)) with ht | hf
        · exact absurd ht hbad
        · exact hf
      rw [hbadf] at hfind
      have hfind2 : List.find? (fun p => !(p.2.length == 2)) rest = some (k, occs) := hfind
      have hgood : (p.2.length == 2) = true := by
        rcases Bool.eq_false_or_eq_true (p.2.length == 2) with ht | hf
        · exact ht
        · rw [hf] at hbad
          exact absurd rfl hbad
      have h2 : p.2.length = 2 := beq_iff_eq.mp hgood
      rcases p with ⟨k0, occs0⟩
      rw [IqMultiQuery.keyFilters]
      rw [if_neg (show ¬((occs0.length == 1) = true) by
        simp only at h2
        rw [h2]
        decide)]
      rw [if_neg (show ¬(2 < occs0.length) by simp only at h2; omega)]
      rw [ih (fun q hq => hne q (List.mem_cons_of_mem _ hq)) k occs hfind2]

theorem keyFilters_ok_lengths :
    ∀ (kd : List (String × List String)) (fs : List String),
      IqMultiQuery.keyFilters kd = Except.ok fs →
      ∀ p ∈ kd, p.2.length = 0 ∨ p.2.length = 2 := by
  intro kd
  induction kd with
  | nil => intro fs _ p hp; exact absurd hp (by simp)
  | cons q rest ih =>
    intro fs hok p hp
    rcases q with ⟨k0, occs0⟩
    rw [IqMultiQuery.keyFilters] at hok
    by_cases h1 : (occs0.length == 1) = true
    · rw [if_pos h1] at hok
      exact absurd hok (by simp)
    · rw [if_neg h1] at hok
      by_cases h2 : 2 < occs0.length
      · rw [if_pos h2] at hok
        exact absurd hok (by simp)
      · rw [if_neg h2] at hok
        rcases List.mem_cons.mp hp with rfl | hp'
        · have hne1 : occs0.length ≠ 1 := fun hc => h1 (by rw [hc]; decide)
          simp only
          omega
        · cases hrest : IqMultiQuery.keyFilters rest with
          | error e => rw [hrest] at hok; exact absurd hok (by simp)
          | ok fs0 => exact ih fs0 hrest p hp'

/-- The key-occurrence dict built by `IqMultiQuery.get_query`, in closed
form: one entry per distinct key column in first-seen order, holding the
qualified references collected across the sub-queries. -/
def multiKeyDict (mq : IqMultiQueryState) (latest : Bool) :
    List (String × List String) :=
  (newCols [] (keyStream mq.keys latest mq.subqueries)).map
    (fun k => (k, keyRefs mq.keys latest k mq.subqueries))

theorem multi_key_dict_eq (mq : IqMultiQueryState) (latest : Bool) :
    (IqMultiQuery.queryLoop mq.keys latest
      { subqs := [], projections := [], columns := [], key_dict := [] }
      mq.subqueries).key_dict = multiKeyDict mq latest := by
  rw [queryLoop_key_dict]
  simp [multiKeyDict]

theorem keyRefs_ne_nil_of_mem_stream (keys : List String) (latest : Bool) :
    ∀ (sqs : List IqSingleQueryState) (k : String),
      k ∈ keyStream keys latest sqs → keyRefs keys latest k sqs ≠ [] := by
  intro sqs
  induction sqs with
  | nil => intro k hk; exact absurd hk (by simp [keyStream])
  | cons sq sqs ih =>
    intro k hk hcontr
    rw [show keyRefs keys latest k (sq :: sqs) =
      (((IqSingleQuery.get_columns sq latest).filter
        (fun c => keys.contains c)).filter (fun c => c == k)).map
        (fun c => sq.name ++ "." ++ c) ++ keyRefs keys latest k sqs from rfl] at hcontr
    rcases List.append_eq_nil.mp hcontr with ⟨hmap, hrest⟩
    rcases List.mem_append.mp hk with hkL | hkS
    · have : k ∈ ((IqSingleQuery.get_columns sq latest).filter
          (fun c => keys.contains c)).filter (fun c => c == k) :=
        List.mem_filter.mpr ⟨hkL, beq_iff_eq.mpr rfl⟩
      rw [List.map_eq_nil] at hmap
      rw [hmap] at this
      exact absurd this (by simp)
    · exact ih k hkS hrest

theorem mem_keyStream_contains (keys : List String) (latest : Bool) :
    ∀ (sqs : List IqSingleQueryState) (k : String),
      k ∈ keyStream keys latest sqs → keys.contains k = true := by
  intro sqs
  induction sqs with
  | nil => intro k hk; exact absurd hk (by simp [keyStream])
  | cons sq sqs ih =>
    intro k hk
    rcases List.mem_append.mp hk with hkL | hkS
    · exact List.of_mem_filter hkL
    · exact ih k hkS

theorem nodup_filter_beq :
    ∀ (cols : List String), cols.Nodup → ∀ (k : String),
      cols.filter (fun c => c == k) =
        if cols.contains k then [k] else [] := by
  intro cols
  induction cols with
  | nil => intro _ k; rfl
  | cons c cs ih =>
    intro h k
    rcases List.nodup_cons.mp h with ⟨hc, hcs⟩
    rw [List.filter_cons]
    by_cases hck : (c == k) = true
    · have hceq : c = k := beq_iff_eq.mp hck
      subst hceq
      rw [if_pos hck]
      have hfil : cs.filter (fun x => x == c) = [] := by
        rw [List.filter_eq_nil]
        intro a ha hbeq
        exact hc (beq_iff_eq.mp hbeq ▸ ha)
      rw [hfil]
      rw [if_pos ((contains_iff_mem _ _).mpr (List.mem_cons_self _ _))]
    · rw [if_neg hck, ih hcs k]
      have hkc : ¬ k = c := fun heq => hck (beq_iff_eq.mpr (heq ▸ rfl))
      have hcont : ((c :: cs).contains k) = (cs.contains k) := by
        rw [Bool.eq_iff_iff, contains_iff_mem, contains_iff_mem]
        constructor
        · intro hm
          rcases List.mem_cons.mp hm with heq | hm'
          · exact absurd heq hkc
          · exact hm'
        · exact fun hm => List.mem_cons_of_mem _ hm
      rw [hcont]

theorem keyRefs_length (keys : List String) (latest : Bool) :
    ∀ (sqs : List IqSingleQueryState) (k : String),
      (∀ sq ∈ sqs, (IqSingleQuery.get_columns sq latest).Nodup) →
      keys.contains k = true →
      (keyRefs keys latest k sqs).length =
        (sqs.filter
          (fun sq => (IqSingleQuery.get_columns sq latest).contains k)).length := by
  intro sqs
  induction sqs with
  | nil => intro k _ _; rfl
  | cons sq sqs ih =>
    intro k hnd hk
    rw [show keyRefs keys latest k (sq :: sqs) =
      (((IqSingleQuery.get_columns sq latest).filter
        (fun c => keys.contains c)).filter (fun c => c == k)).map
        (fun c => sq.name ++ "." ++ c) ++ keyRefs keys latest k sqs from rfl]
    rw [List.length_append, List.length_map]
    have hff : ((IqSingleQuery.get_columns sq latest).filter
        (fun c => keys.contains c)).filter (fun c => c == k) =
        (IqSingleQuery.get_columns sq latest).filter (fun c => c == k) := by
      rw [List.filter_filter]
      apply List.filter_congr
      intro a _
      by_cases hak : (a == k) = true
      · have : a = k := beq_iff_eq.mp hak
        subst this
        rw [hak, hk]
        rfl
      · rw [Bool.not_eq_true] at hak
        rw [hak]
        simp
    rw [hff, nodup_filter_beq _ (hnd sq (List.mem_cons_self _ _)) k]
    rw [List.filter_cons]
    by_cases hm : ((IqSingleQuery.get_columns sq latest).contains k) = true
    · rw [if_pos hm, if_pos hm, List.length_cons,
        ih k (fun q hq => hnd q (List.mem_cons_of_mem _ hq)) hk]
      simp [Nat.add_comm]
    · rw [if_neg hm, if_neg hm,
        ih k (fun q hq => hnd q (List.mem_cons_of_mem _ hq)) hk]
      simp

/-- `True` exactly when the build returned a query dict rather than
raising. -/
def build_succeeds (e : Except BuildErr QueryDict) : Bool :=
  match e with
  | Except.ok _ => true
  | Except.error _ => false

/-- C3 (amended): for every MultiQuery build, (a) when every declared key
column that occurs in at least one sub-query occurs in exactly two, the
build succeeds — in particular a declared key occurring in NO sub-query
is silently ignored rather than rejected; (b) the build fails on the
first (in first-seen order) key with a different occurrence count, with
`KeyNotJoinable` for a single occurrence and `KeyAmbiguous` for three or
more; (c) when each sub-query's column aliases are duplicate-free, the
occurrence count of a key equals the number of sub-queries whose columns
include it. -/
theorem multi_query_key_arity (mq : IqMultiQueryState) (latest : Bool) :
    ((∀ p ∈ multiKeyDict mq latest, p.2.length = 2) →
      build_succeeds (IqMultiQuery.get_query mq latest) = true)
    ∧ (∀ (k : String) (occs : List String),
        (multiKeyDict mq latest).find? (fun p => !(p.2.length == 2)) = some (k, occs) →
        IqMultiQuery.get_query mq latest =
          Except.error (if occs.length == 1 then BuildErr.keyNotJoinable k
            else BuildErr.keyAmbiguous k))
    ∧ ((∀ sq ∈ mq.subqueries, (IqSingleQuery.get_columns sq latest).Nodup) →
        ∀ p ∈ multiKeyDict mq latest,
          p.2.length = (mq.subqueries.filter
            (fun sq => (IqSingleQuery.get_columns sq latest).contains p.1)).length) := by
  have hne : ∀ p ∈ multiKeyDict mq latest, p.2 ≠ [] := by
    intro p hp
    rcases List.mem_map.mp hp with ⟨k0, hk0, rfl⟩
    exact keyRefs_ne_nil_of_mem_stream mq.keys latest mq.subqueries k0
      ((mem_newCols_iff _ _ _).mp hk0).1
  refine ⟨?_, ?_, ?_⟩
  · intro h
    simp only [IqMultiQuery.get_query]
    rw [multi_key_dict_eq, keyFilters_ok_of_all_two _ h]
    rfl
  · intro k occs hfind
    simp only [IqMultiQuery.get_query]
    rw [multi_key_dict_eq, keyFilters_error_of_find _ hne k occs hfind]
  · intro hnd p hp
    rcases List.mem_map.mp hp with ⟨k0, hk0, rfl⟩
    exact keyRefs_length mq.keys latest mq.subqueries k0 hnd
      (mem_keyStream_contains mq.keys latest mq.subqueries k0
        ((mem_newCols_iff _ _ _).mp hk0).1)

/-! ## Concrete fixtures: two result sets joined on a shared dimension set -/

/-- A dimension set shared by the two result sets below; it induces the
shared column alias `stream_id`. -/
def dimStream : IqSetData := { name := "stream", column_list := ["id"] }

def txSet : IqResultSetData :=
  { name := "tx", column_list := ["bytes"], dimension_sets := [dimStream] }

def rxSet : IqResultSetData :=
  { name := "rx", column_list := ["pkts"], dimension_sets := [dimStream] }

def txQuery : IqSingleQueryState :=
  { name := "tx", filters := [], groups := [], orders := [],
    timestamp_range := TsRange.empty, limit := none, pagination := none,
    iq_set := txSet }

def rxQuery : IqSingleQueryState :=
  { name := "rx", filters := [], groups := [], orders := [],
    timestamp_range := TsRange.empty, limit := none, pagination := none,
    iq_set := rxSet }

def mqZeroKey : IqMultiQueryState :=
  { name := some "m", filters := [], groups := [], orders := [],
    timestamp_range := TsRange.empty, limit := none, pagination := none,
    subqueries := [txQuery, rxQuery], keys := ["zz"] }

/-- C3 counterexample: a declared key (`zz`) found in ZERO sub-queries.
The claim says the build succeeds for a key only when it is found in
exactly two sub-queries, but the code silently ignores a key with no
occurrences and the build succeeds. -/
theorem multi_query_zero_occurrence_key_builds :
    build_succeeds (IqMultiQuery.get_query mqZeroKey false) = true
    ∧ mqZeroKey.keys = ["zz"]
    ∧ (mqZeroKey.subqueries.all
        (fun sq => !((IqSingleQuery.get_columns sq false).contains "zz"))) = true := by
  exact ⟨rfl, rfl, rfl⟩

def mqC3bad : IqMultiQueryState :=
  { name := some "m", filters := [], groups := [], orders := [],
    timestamp_range := TsRange.empty, limit := none, pagination := none,
    subqueries := [txQuery], keys := ["stream_id"] }

def mqC3good : IqMultiQueryState :=
  { name := some "m", filters := [], groups := [], orders := [],
    timestamp_range := TsRange.empty, limit := none, pagination := none,
    subqueries := [txQuery, rxQuery], keys := ["stream_id"] }

theorem multi_query_key_arity_witness :
    IqMultiQuery.get_query mqC3bad false
      = Except.error (BuildErr.keyNotJoinable "stream_id")
    ∧ build_succeeds (IqMultiQuery.get_query mqC3good false) = true
    ∧ (keyRefs mqC3good.keys false "stream_id" mqC3good.subqueries).length =
        (mqC3good.subqueries.filter
          (fun sq => (IqSingleQuery.get_columns sq false).contains "stream_id")).length := by
  refine ⟨?_, ?_, ?_⟩
  · exact (multi_query_key_arity mqC3bad false).2.1 "stream_id" ["tx.stream_id"] rfl
  · exact (multi_query_key_arity mqC3good false).1 (by decide)
  · exact (multi_query_key_arity mqC3good false).2.2 (by decide)
      ("stream_id", keyRefs mqC3good.keys false "stream_id" mqC3good.subqueries)
      (by decide)

def mqC6 : IqMultiQueryState :=
  { name := some "m", filters := [], groups := [], orders := [],
    timestamp_range := TsRange.relative "PT1H", limit := none, pagination := none,
    subqueries := [txQuery], keys := [] }

/-- C6 counterexample: a MultiQuery whose (inherited) `timestamp_range`
state is set emits a dict WITHOUT a `timestamp_range` key —
`IqMultiQuery.get_query` builds its dict from scratch and never includes
one, contradicting the claim that every built query dict contains the
key `timestamp_range`. -/
theorem multi_query_missing_timestamp_range :
    (IqMultiQuery.get_query mqC6 false).map (fun q => q.map Prod.fst) =
      Except.ok ["alias", "filters", "groups", "orders", "limit", "pagination",
        "subqueries", "projections"]
    ∧ mqC6.timestamp_range = TsRange.relative "PT1H"
    ∧ ¬ "timestamp_range" ∈ ["alias", "filters", "groups", "orders", "limit",
        "pagination", "subqueries", "projections"] := by
  exact ⟨rfl, rfl, by decide⟩

/-- C6 (amended): a single-result query dict carries exactly the keys
`alias, filters, groups, orders, timestamp_range, limit, pagination,
projections` (in insertion order); a successfully built multi-result
query dict carries exactly `alias, filters, groups, orders, limit,
pagination, subqueries, projections` — `timestamp_range` is absent — and
its `subqueries` key holds the recursively built sub-query dicts. -/
theorem query_dict_keys :
    (∀ (sq : IqSingleQueryState) (latest : Bool),
      (IqSingleQuery.get_query sq latest).map Prod.fst =
        ["alias", "filters", "groups", "orders", "timestamp_range", "limit",
         "pagination", "projections"])
    ∧ (∀ (mq : IqMultiQueryState) (latest : Bool) (q : QueryDict),
        IqMultiQuery.get_query mq latest = Except.ok q →
          q.map Prod.fst = ["alias", "filters", "groups", "orders", "limit",
            "pagination", "subqueries", "projections"]
          ∧ q.lookup "subqueries" =
            some (QVal.subs (mq.subqueries.map
              (fun sq => IqSingleQuery.get_query sq latest)))) := by
  constructor
  · intro sq latest
    rfl
  · intro mq latest q h
    simp only [IqMultiQuery.get_query] at h
    cases hk : IqMultiQuery.keyFilters
        ((IqMultiQuery.queryLoop mq.keys latest
          { subqs := [], projections := [], columns := [], key_dict := [] }
          mq.subqueries).key_dict) with
    | error e =>
      rw [hk] at h
      exact absurd h (by simp)
    | ok kfs =>
      rw [hk] at h
      have hq : q = [("alias", QVal.optStr mq.name),
          ("filters", QVal.strs (mq.filters ++ kfs)),
          ("groups", QVal.strs mq.groups),
          ("orders", QVal.strs mq.orders),
          ("limit", QVal.optInt mq.limit),
          ("pagination", QVal.optInt mq.pagination),
          ("subqueries", QVal.subs ((IqMultiQuery.queryLoop mq.keys latest
            { subqs := [], projections := [], columns := [], key_dict := [] }
            mq.subqueries).subqs)),
          ("projections", QVal.strs ((IqMultiQuery.queryLoop mq.keys latest
            { subqs := [], projections := [], columns := [], key_dict := [] }
            mq.subqueries).projections))] := by
        have := h
        simp only [Except.ok.injEq] at this
        exact this.symm
      subst hq
      constructor
      · rfl
      · rw [queryLoop_subqs]
        rfl

theorem newCols_nil_seen (l : List String) (h : l.Nodup) : newCols [] l = l := by
  rw [newCols_filter_of_nodup l h []]
  exact List.filter_eq_self.mpr (fun a _ => rfl)

theorem filter_pair_length_two {α : Type} (pred : α → Bool) (A B : α)
    (h : (List.filter pred [A, B]).length = 2) :
    pred A = true ∧ pred B = true := by
  rcases Bool.eq_false_or_eq_true (pred A) with hA | hA <;>
    rcases Bool.eq_false_or_eq_true (pred B) with hB | hB
  · exact ⟨hA, hB⟩
  · exfalso; simp [List.filter_cons, hA, hB] at h
  · exfalso; simp [List.filter_cons, hA, hB] at h
  · exfalso; simp [List.filter_cons, hA, hB] at h

/-- C4: for a MultiQuery over two sub-queries `A`, `B` (with
duplicate-free column alias lists) that share a declared key column `k`,
a successful build emits: the top-level projections as `A`'s aliases in
order followed by `B`'s aliases not already seen (each qualified by its
own sub-query and de-duplicated first-occurrence-wins, so the key's alias
appears exactly once); and the filter list as the caller's filters
followed by exactly one auto-generated equality filter per shared key, of
the form `"A.k=B.k"` (qualified alias on each side, `A` — the first-seen
side — on the left), with `k`'s filter occurring exactly once.  No
sorting is applied anywhere: both lists follow first-seen order. -/
theorem multi_query_join_filter
    (mq : IqMultiQueryState) (latest : Bool) (A B : IqSingleQueryState)
    (k : String) (q : QueryDict)
    (hsubs : mq.subqueries = [A, B])
    (hndA : (IqSingleQuery.get_columns A latest).Nodup)
    (hndB : (IqSingleQuery.get_columns B latest).Nodup)
    (hkkeys : k ∈ mq.keys)
    (hkA : k ∈ IqSingleQuery.get_columns A latest)
    (hkB : k ∈ IqSingleQuery.get_columns B latest)
    (hok : IqMultiQuery.get_query mq latest = Except.ok q) :
    q.lookup "projections" =
      some (QVal.strs
        ((IqSingleQuery.get_columns A latest).map
            (fun c => A.name ++ "." ++ c ++ " AS " ++ c)
          ++ ((IqSingleQuery.get_columns B latest).filter
              (fun c => !((IqSingleQuery.get_columns A latest).contains c))).map
            (fun c => B.name ++ "." ++ c ++ " AS " ++ c)))
    ∧ q.lookup "filters" =
      some (QVal.strs (mq.filters ++
        ((IqSingleQuery.get_columns A latest).filter
            (fun c => mq.keys.contains c)).map
          (fun c => A.name ++ "." ++ c ++ "=" ++ (B.name ++ "." ++ c))))
    ∧ ((IqSingleQuery.get_columns A latest).filter
        (fun c => mq.keys.contains c)).count k = 1 := by
  have hndL : ∀ sq ∈ [A, B], (IqSingleQuery.get_columns sq latest).Nodup := by
    intro sq hsq
    rcases List.mem_cons.mp hsq with rfl | hsq'
    · exact hndA
    · rcases List.mem_cons.mp hsq' with rfl | hsq''
      · exact hndB
      · exact absurd hsq'' (by simp)
  have hLA_nodup : ((IqSingleQuery.get_columns A latest).filter
      (fun c => mq.keys.contains c)).Nodup := hndA.filter _
  have hstream : keyStream mq.keys latest [A, B] =
      (IqSingleQuery.get_columns A latest).filter (fun c => mq.keys.contains c)
      ++ (IqSingleQuery.get_columns B latest).filter (fun c => mq.keys.contains c) := by
    simp [keyStream]
  have hrefs : ∀ k', keyRefs mq.keys latest k' [A, B] =
      (((IqSingleQuery.get_columns A latest).filter
        (fun c => mq.keys.contains c)).filter (fun c => c == k')).map
        (fun c => A.name ++ "." ++ c)
      ++ (((IqSingleQuery.get_columns B latest).filter
        (fun c => mq.keys.contains c)).filter (fun c => c == k')).map
        (fun c => B.name ++ "." ++ c) := by
    intro k'
    simp [keyRefs]
  simp only [IqMultiQuery.get_query] at hok
  rw [hsubs] at hok
  have hkd : (IqMultiQuery.queryLoop mq.keys latest
      { subqs := [], projections := [], columns := [], key_dict := [] }
      [A, B]).key_dict
      = (newCols [] (keyStream mq.keys latest [A, B])).map
          (fun k' => (k', keyRefs mq.keys latest k' [A, B])) := by
    rw [queryLoop_key_dict]
    simp
  cases hk2 : IqMultiQuery.keyFilters ((IqMultiQuery.queryLoop mq.keys latest
      { subqs := [], projections := [], columns := [], key_dict := [] }
      [A, B]).key_dict) with
  | error e =>
    rw [hk2] at hok
    exact absurd hok (by simp)
  | ok kfs =>
    rw [hk2] at hok
    have hq : q = [("alias", QVal.optStr mq.name),
        ("filters", QVal.strs (mq.filters ++ kfs)),
        ("groups", QVal.strs mq.groups),
        ("orders", QVal.strs mq.orders),
        ("limit", QVal.optInt mq.limit),
        ("pagination", QVal.optInt mq.pagination),
        ("subqueries", QVal.subs ((IqMultiQuery.queryLoop mq.keys latest
          { subqs := [], projections := [], columns := [], key_dict := [] }
          [A, B]).subqs)),
        ("projections", QVal.strs ((IqMultiQuery.queryLoop mq.keys latest
          { subqs := [], projections := [], columns := [], key_dict := [] }
          [A, B]).projections))] := by
      have := hok
      simp only [Except.ok.injEq] at this
      exact this.symm
    -- every entry of the key dict has exactly two occurrences
    have hlens : ∀ p ∈ (newCols [] (keyStream mq.keys latest [A, B])).map
        (fun k' => (k', keyRefs mq.keys latest k' [A, B])), p.2.length = 2 := by
      intro p hp
      rcases keyFilters_ok_lengths _ kfs (hkd ▸ hk2) p hp with h0 | h2
      · exfalso
        rcases List.mem_map.mp hp with ⟨k0, hk0, rfl⟩
        exact keyRefs_ne_nil_of_mem_stream mq.keys latest [A, B] k0
          ((mem_newCols_iff _ _ _).mp hk0).1
          (List.eq_nil_of_length_eq_zero h0)
      · exact h2
    -- each key in the stream therefore occurs in both sub-queries
    have hboth : ∀ k', k' ∈ newCols [] (keyStream mq.keys latest [A, B]) →
        ((IqSingleQuery.get_columns A latest).contains k') = true ∧
        ((IqSingleQuery.get_columns B latest).contains k') = true := by
      intro k' hk'
      have hlen := hlens (k', keyRefs mq.keys latest k' [A, B])
        (List.mem_map.mpr ⟨k', hk', rfl⟩)
      have hcnt : (keyRefs mq.keys latest k' [A, B]).length =
          (List.filter (fun sq => (IqSingleQuery.get_columns sq latest).contains k')
            [A, B]).length :=
        keyRefs_length mq.keys latest [A, B] k' hndL
          (mem_keyStream_contains mq.keys latest [A, B] k'
            ((mem_newCols_iff _ _ _).mp hk').1)
      exact filter_pair_length_two _ A B (by rw [← hcnt]; exact hlen)
    -- the de-duplicated key stream is exactly A's filtered columns
    have hLAsub : newCols [] (keyStream mq.keys latest [A, B]) =
        (IqSingleQuery.get_columns A latest).filter (fun c => mq.keys.contains c) := by
      rw [hstream, newCols_append, newCols_nil_seen _ hLA_nodup, List.nil_append]
      have hempty : newCols
          ((IqSingleQuery.get_columns A latest).filter (fun c => mq.keys.contains c))
          ((IqSingleQuery.get_columns B latest).filter (fun c => mq.keys.contains c))
          = [] := by
        rcases hcase : newCols
            ((IqSingleQuery.get_columns A latest).filter (fun c => mq.keys.contains c))
            ((IqSingleQuery.get_columns B latest).filter (fun c => mq.keys.contains c))
          with _ | ⟨x, xs⟩
        · rfl
        · exfalso
          have hx : x ∈ newCols
              ((IqSingleQuery.get_columns A latest).filter (fun c => mq.keys.contains c))
              ((IqSingleQuery.get_columns B latest).filter (fun c => mq.keys.contains c)) := by
            rw [hcase]; exact List.mem_cons_self _ _
          rcases (mem_newCols_iff _ _ _).mp hx with ⟨hxB, hxnA⟩
          have hxstream : x ∈ newCols [] (keyStream mq.keys latest [A, B]) := by
            rw [hstream, newCols_append, newCols_nil_seen _ hLA_nodup, List.nil_append]
            exact List.mem_append.mpr (Or.inr hx)
          have hxA : ((IqSingleQuery.get_columns A latest).contains x) = true :=
            (hboth x hxstream).1
          apply hxnA
          apply List.mem_filter.mpr
          constructor
          · exact (contains_iff_mem _ _).mp hxA
          · exact List.of_mem_filter hxB
      rw [hempty, List.append_nil]
    -- occurrence lists of the keys are exactly the two qualified references
    have hpairs : ∀ k' ∈ (IqSingleQuery.get_columns A latest).filter
        (fun c => mq.keys.contains c),
        keyRefs mq.keys latest k' [A, B] =
          [A.name ++ "." ++ k', B.name ++ "." ++ k'] := by
      intro k' hk'
      have hk'keys : (mq.keys.contains k') = true := List.of_mem_filter hk'
      have hk'A : k' ∈ IqSingleQuery.get_columns A latest := List.mem_of_mem_filter hk'
      have hk'stream : k' ∈ newCols [] (keyStream mq.keys latest [A, B]) := by
        rw [hLAsub]; exact hk'
      have hk'B : ((IqSingleQuery.get_columns B latest).contains k') = true :=
        (hboth k' hk'stream).2
      rw [hrefs k']
      have hfA : ((IqSingleQuery.get_columns A latest).filter
          (fun c => mq.keys.contains c)).filter (fun c => c == k') = [k'] := by
        rw [nodup_filter_beq _ hLA_nodup k',
          if_pos ((contains_iff_mem _ _).mpr hk')]
      have hfB : ((IqSingleQuery.get_columns B latest).filter
          (fun c => mq.keys.contains c)).filter (fun c => c == k') = [k'] := by
        rw [nodup_filter_beq _ (hndB.filter _) k', if_pos]
        rw [contains_iff_mem]
        apply List.mem_filter.mpr
        exact ⟨(contains_iff_mem _ _).mp hk'B, hk'keys⟩
      rw [hfA, hfB]
      rfl
    -- the emitted key filters
    have hkfs : kfs = ((IqSingleQuery.get_columns A latest).filter
        (fun c => mq.keys.contains c)).map
        (fun c => A.name ++ "." ++ c ++ "=" ++ (B.name ++ "." ++ c)) := by
      have hcomp := keyFilters_ok_of_all_two _ hlens
      rw [hkd] at hk2
      rw [hk2] at hcomp
      have hkfs0 : kfs = ((newCols [] (keyStream mq.keys latest [A, B])).map
          (fun k' => (k', keyRefs mq.keys latest k' [A, B]))).map
          (fun p => p.2.getD 0 "" ++ "=" ++ p.2.getD 1 "") := by
        simpa using hcomp
      rw [hkfs0, List.map_map, hLAsub]
      apply mapCongrMem
      intro c hc
      show (keyRefs mq.keys latest c [A, B]).getD 0 "" ++ "=" ++
        (keyRefs mq.keys latest c [A, B]).getD 1 "" =
        A.name ++ "." ++ c ++ "=" ++ (B.name ++ "." ++ c)
      rw [hpairs c hc]
      rfl
    -- the emitted projections
    have hproj : (IqMultiQuery.queryLoop mq.keys latest
        { subqs := [], projections := [], columns := [], key_dict := [] }
        [A, B]).projections =
        (IqSingleQuery.get_columns A latest).map
            (fun c => A.name ++ "." ++ c ++ " AS " ++ c)
          ++ ((IqSingleQuery.get_columns B latest).filter
              (fun c => !((IqSingleQuery.get_columns A latest).contains c))).map
            (fun c => B.name ++ "." ++ c ++ " AS " ++ c) := by
      rw [show IqMultiQuery.queryLoop mq.keys latest
          { subqs := [], projections := [], columns := [], key_dict := [] } [A, B]
          = IqMultiQuery.subLoop mq.keys latest
            (IqMultiQuery.subLoop mq.keys latest
              { subqs := [], projections := [], columns := [], key_dict := [] } A) B
        from rfl]
      rw [subLoop_projections, subLoop_projections, subLoop_columns]
      have hc0 : (({ subqs := [], projections := [], columns := [], key_dict := [] } : MultiLoopState)).columns = [] := rfl
      have hp0 : (({ subqs := [], projections := [], columns := [], key_dict := [] } : MultiLoopState)).projections = [] := rfl
      rw [hc0, hp0, newCols_nil_seen _ hndA, List.nil_append, List.nil_append,
        newCols_filter_of_nodup _ hndB]
    subst hq
    refine ⟨?_, ?_, ?_⟩
    · rw [show (([("alias", QVal.optStr mq.name),
          ("filters", QVal.strs (mq.filters ++ kfs)),
          ("groups", QVal.strs mq.groups),
          ("orders", QVal.strs mq.orders),
          ("limit", QVal.optInt mq.limit),
          ("pagination", QVal.optInt mq.pagination),
          ("subqueries", QVal.subs ((IqMultiQuery.queryLoop mq.keys latest
            { subqs := [], projections := [], columns := [], key_dict := [] }
            [A, B]).subqs)),
          ("projections", QVal.strs ((IqMultiQuery.queryLoop mq.keys latest
            { subqs := [], projections := [], columns := [], key_dict := [] }
            [A, B]).projections))] : QueryDict).lookup "projections")
          = some (QVal.strs ((IqMultiQuery.queryLoop mq.keys latest
            { subqs := [], projections := [], columns := [], key_dict := [] }
            [A, B]).projections)) from rfl]
      rw [hproj]
    · rw [show (([("alias", QVal.optStr mq.name),
          ("filters", QVal.strs (mq.filters ++ kfs)),
          ("groups", QVal.strs mq.groups),
          ("orders", QVal.strs mq.orders),
          ("limit", QVal.optInt mq.limit),
          ("pagination", QVal.optInt mq.pagination),
          ("subqueries", QVal.subs ((IqMultiQuery.queryLoop mq.keys latest
            { subqs := [], projections := [], columns := [], key_dict := [] }
            [A, B]).subqs)),
          ("projections", QVal.strs ((IqMultiQuery.queryLoop mq.keys latest
            { subqs := [], projections := [], columns := [], key_dict := [] }
            [A, B]).projections))] : QueryDict).lookup "filters")
          = some (QVal.strs (mq.filters ++ kfs)) from rfl]
      rw [hkfs]
    · have hkmem : k ∈ (IqSingleQuery.get_columns A latest).filter
          (fun c => mq.keys.contains c) :=
        List.mem_filter.mpr ⟨hkA, (contains_iff_mem _ _).mpr hkkeys⟩
      exact List.count_eq_one_of_mem hLA_nodup hkmem

def mqC4 : IqMultiQueryState :=
  { name := some "m", filters := [], groups := [], orders := [],
    timestamp_range := TsRange.empty, limit := none, pagination := none,
    subqueries := [txQuery, rxQuery], keys := ["stream_id"] }

def qC4 : QueryDict :=
  match IqMultiQuery.get_query mqC4 false with
  | Except.ok q => q
  | Except.error _ => []

theorem multi_query_join_filter_witness :
    qC4.lookup "projections" =
      some (QVal.strs
        ((IqSingleQuery.get_columns txQuery false).map
            (fun c => txQuery.name ++ "." ++ c ++ " AS " ++ c)
          ++ ((IqSingleQuery.get_columns rxQuery false).filter
              (fun c => !((IqSingleQuery.get_columns txQuery false).contains c))).map
            (fun c => rxQuery.name ++ "." ++ c ++ " AS " ++ c)))
    ∧ qC4.lookup "filters" =
      some (QVal.strs (mqC4.filters ++
        ((IqSingleQuery.get_columns txQuery false).filter
            (fun c => mqC4.keys.contains c)).map
          (fun c => txQuery.name ++ "." ++ c ++ "=" ++ (rxQuery.name ++ "." ++ c))))
    ∧ ((IqSingleQuery.get_columns txQuery false).filter
        (fun c => mqC4.keys.contains c)).count "stream_id" = 1 := by
  exact multi_query_join_filter mqC4 false txQuery rxQuery "stream_id" qC4
    rfl (by decide) (by decide) (by decide) (by decide) (by decide) rfl

/-! ## Result reshaping (`SpirentTestCenterIQ.convert_result_to_dict`) -/

/-- The `result` member of a raw response:
`{result: {columns: [...], rows: [[...]...]}}`; the `rows` key may be
absent (`none`). -/
structure RawResult where
  columns : List String
  rows : Option (List (List JVal))

/-- A value of the reshaped result dictionary: either a cell taken from a
row, or a nested Python dict (insertion-ordered). -/
inductive DVal where
  | leaf (v : JVal)
  | dict (entries : List (JVal × DVal))
deriving Repr

/-- The reshaped result dictionary; its keys are row indices (as JSON
numbers), key-column cell values, or column names (as JSON strings). -/
abbrev DDict := List (JVal × DVal)

mutual
/-- Structural equality of JSON values (Python `==` on parsed JSON). -/
def JVal.beq : JVal → JVal → Bool
  | JVal.str a, JVal.str b => a == b
  | JVal.num a, JVal.num b => a == b
  | JVal.bool a, JVal.bool b => a == b
  | JVal.null, JVal.null => true
  | JVal.arr a, JVal.arr b => JVal.beqList a b
  | JVal.obj a, JVal.obj b => JVal.beqObj a b
  | _, _ => false

def JVal.beqList : List JVal → List JVal → Bool
  | [], [] => true
  | a :: as2, b :: bs => JVal.beq a b && JVal.beqList as2 bs
  | _, _ => false

def JVal.beqObj : List (String × JVal) → List (String × JVal) → Bool
  | [], [] => true
  | (k1, v1) :: as2, (k2, v2) :: bs =>
    k1 == k2 && JVal.beq v1 v2 && JVal.beqObj as2 bs
  | _, _ => false
end

/-- Python dict assignment `d[k] = v` on a JSON-keyed dict: update in
place when the key exists, append otherwise. -/
def dassign (d : DDict) (k : JVal) (v : DVal) : DDict :=
  if d.any (fun p => JVal.beq p.1 k) then
    d.map (fun p => if JVal.beq p.1 k then (p.1, v) else p)
  else d ++ [(k, v)]

/-- Python dict assignment with string keys (used for the per-row
`entry` dict mapping column names to cells). -/
def sassign (d : List (String × JVal)) (k : String) (v : JVal) :
    List (String × JVal) :=
  if d.any (fun p => p.1 == k) then
    d.map (fun p => if p.1 == k then (p.1, v) else p)
  else d ++ [(k, v)]

/-- The entry-building loop of `convert_result_to_dict`:
`for column in columns: entry[column] = row[column_index]`, raising
`IndexError` when the row is shorter than the column list. -/
def buildEntry (row : List JVal) :
    List (String × JVal) → Nat → List String → Except PyErr (List (String × JVal))
  | entry, _, [] => Except.ok entry
  | entry, column_index, column :: columns =>
    match row.get? column_index with
    | none => Except.error PyErr.indexError
    | some v => buildEntry row (sassign entry column v) (column_index + 1) columns

/-- A per-row `entry` dict embedded as a reshaped-dict value: column
names become string keys, cells become leaves. -/
def entryToDVal (entry : List (String × JVal)) : DVal :=
  DVal.dict (entry.map (fun p => (JVal.str p.1, DVal.leaf p.2)))

mutual
/-- `deepupdate(target, src)` (the module-level helper): for each
key/value of `src` in order, extend lists, recursively merge dicts, and
overwrite scalars; a fresh key is (deep-)copied over.  JSON has no
Python sets, so the set branch cannot trigger here.  (On mismatched
shapes — a list or dict source value meeting a differently-shaped target
value — Python would raise; those branches are modelled as overwrite and
are unreachable for the shapes this module builds.) -/
def deepupdate (target : DDict) : DDict → DDict
  | [] => target
  | (k, v) :: rest => deepupdate (deepupdateEntry target k v) rest
termination_by src => 2 * sizeOf src
decreasing_by
  all_goals simp_wf <;> omega

def deepupdateEntry (target : DDict) (k : JVal) (v : DVal) : DDict :=
  match (target.find? (fun p => JVal.beq p.1 k)).map Prod.snd with
  | none => target ++ [(k, v)]
  | some tv =>
    target.map (fun p => if JVal.beq p.1 k then (p.1, deepmerge tv v) else p)
termination_by 2 * sizeOf v + 1
decreasing_by
  all_goals simp_wf <;> omega

def deepmerge (tv : DVal) (v : DVal) : DVal :=
  match v with
  | DVal.leaf (JVal.arr xs) =>
    match tv with
    | DVal.leaf (JVal.arr ys) => DVal.leaf (JVal.arr (ys ++ xs))
    | _ => v
  | DVal.dict kvs =>
    match tv with
    | DVal.dict tkvs => DVal.dict (deepupdate tkvs kvs)
    | _ => v
  | _ => v
termination_by 2 * sizeOf v
decreasing_by
  all_goals simp_wf <;> omega
end

/-- The validation loop at the top of `convert_result_to_dict`:
`for key in key_names: if key not in columns: raise KeyError(...)`. -/
def validateKeys (columns : List String) : List String → Except PyErr Unit
  | [] => Except.ok ()
  | key :: keys =>
    if columns.contains key then validateKeys columns keys
    else Except.error
      (PyErr.keyError ("The key '" ++ key ++ "' is not a valid value."))

/-- Python `entry[name]` on the per-row entry dict. -/
def lookupEntry (entry : List (String × JVal)) (n : String) : Except PyErr JVal :=
  match entry.find? (fun p => p.1 == n) with
  | some p => Except.ok p.2
  | none => Except.error (PyErr.keyError n)

/-- The nested-dict construction of the keyed branch: walk the key names,
keying each level by `entry[name]`, and place the full entry at the level
whose name equals the LAST key name (Python compares `name ==
key_names[-1]` by value).  The enclosing `for key in key_names` loop in
the source rebuilds the same `new_dict` once per key name; its net effect
is a single build, which is what is modelled.  (When the last name also
occurs earlier in the list, CPython descends into the shared `entry`
object and mutates it; that aliasing corner is outside this pure model.) -/
def buildNested (entry : List (String × JVal)) (lastName : String) :
    List String → Except PyErr DVal
  | [] => Except.ok (DVal.dict [])
  | name :: rest => do
    let key_value ← lookupEntry entry name
    if name == lastName then
      Except.ok (DVal.dict [(key_value, entryToDVal entry)])
    else do
      let inner ← buildNested entry lastName rest
      Except.ok (DVal.dict [(key_value, inner)])

/-- The row loop of the keyed branch: build the row's entry and nested
dict, then `deepupdate(result_dict, new_dict)`. -/
def convertRowsKeys (columns : List String) (key_names : List String)
    (lastName : String) :
    List (List JVal) → DDict → Except PyErr DDict
  | [], acc => Except.ok acc
  | row :: rest, acc => do
    let entry ← buildEntry row [] 0 columns
    let nd ← buildNested entry lastName key_names
    let acc2 := match nd with
      | DVal.dict kvs => deepupdate acc kvs
      | _ => acc
    convertRowsKeys columns key_names lastName rest acc2

/-- The row loop of the index-keyed branch: `row_index += 1;
result_dict[row_index] = entry`. -/
def convertRowsNoKeys (columns : List String) :
    List (List JVal) → Nat → DDict → Except PyErr DDict
  | [], _, acc => Except.ok acc
  | row :: rest, row_index, acc => do
    let entry ← buildEntry row [] 0 columns
    convertRowsNoKeys columns rest (row_index + 1)
      (dassign acc (JVal.num (Int.ofNat (row_index + 1))) (entryToDVal entry))

/-- `SpirentTestCenterIQ.convert_result_to_dict`: validate the requested
keys against the columns (when a non-empty key list was given — `if
key_names:` treats `None` and `[]` alike), then reshape the rows; absent
or empty rows produce the empty dict. -/
def SpirentTestCenterIQ.convert_result_to_dict (raw : RawResult)
    (key_names : Option (List String)) : Except PyErr DDict := do
  (match key_names with
   | some (k :: ks) => validateKeys raw.columns (k :: ks)
   | _ => pure ())
  match raw.rows with
  | some (r :: rs) =>
    match key_names with
    | some (k :: ks) =>
      convertRowsKeys raw.columns (k :: ks) ((k :: ks).getLastD "") (r :: rs) []
    | _ => convertRowsNoKeys raw.columns (r :: rs) 0 []
  | _ => Except.ok []

theorem validateKeys_error (columns : List String) :
    ∀ (ks : List String) (k : String),
      ks.find? (fun x => !(columns.contains x)) = some k →
      validateKeys columns ks =
        Except.error
          (PyErr.keyError ("The key '" ++ k ++ "' is not a valid value.")) := by
  intro ks
  induction ks with
  | nil => intro k h; exact absurd h (by simp)
  | cons key keys ih =>
    intro k h
    rw [List.find?_cons] at h
    by_cases hc : (columns.contains key) = true
    · have hneg : (!(columns.contains key)) = false := by rw [hc]; rfl
      rw [hneg] at h
      rw [validateKeys, if_pos hc]
      exact ih k h
    · have hcf : (columns.contains key) = false := by
        rcases Bool.eq_false_or_eq_true (columns.contains key) with ht | hf
        · exact absurd ht hc
        · exact hf
      have hpos : (!(columns.contains key)) = true := by rw [hcf]; rfl
      rw [hpos] at h
      have hk : key = k := by simpa using h
      subst hk
      rw [validateKeys, if_neg hc]

/-- C7: a request with a key name absent from the columns fails with the
`KeyError` that names the first absent key, before any row is processed:
the outcome is the same for EVERY value of the rows (present, absent, or
malformed), so no partial output can be produced. -/
theorem convert_result_unknown_key
    (columns : List String) (ks : List String) (k : String)
    (hfind : ks.find? (fun x => !(columns.contains x)) = some k) :
    ∀ rows, SpirentTestCenterIQ.convert_result_to_dict
        { columns := columns, rows := rows } (some ks) =
      Except.error
        (PyErr.keyError ("The key '" ++ k ++ "' is not a valid value.")) := by
  intro rows
  cases ks with
  | nil => exact absurd hfind (by simp)
  | cons k0 ks' =>
    have hval := validateKeys_error columns (k0 :: ks') k hfind
    simp only [SpirentTestCenterIQ.convert_result_to_dict]
    rw [hval]
    rfl

theorem convert_result_unknown_key_witness :
    SpirentTestCenterIQ.convert_result_to_dict
        { columns := ["a"], rows := some [[JVal.num 1]] } (some ["bad"]) =
      Except.error
        (PyErr.keyError ("The key '" ++ "bad" ++ "' is not a valid value.")) := by
  exact convert_result_unknown_key ["a"] ["bad"] "bad" rfl (some [[JVal.num 1]])

theorem buildEntry_eq (row : List JVal) :
    ∀ (columns : List String) (i : Nat) (entry : List (String × JVal)),
      columns.Nodup →
      (∀ c ∈ columns, (entry.any (fun p => p.1 == c)) = false) →
      i + columns.length ≤ row.length →
      buildEntry row entry i columns =
        Except.ok (entry ++ columns.zip (row.drop i)) := by
  intro columns
  induction columns with
  | nil => intro i entry _ _ _; simp [buildEntry]
  | cons c cs ih =>
    intro i entry hnd hfresh hlen
    rcases List.nodup_cons.mp hnd with ⟨hc, hcs⟩
    have hi : i < row.length := by
      simp only [List.length_cons] at hlen
      omega
    have hget : row.get? i = some (row.get ⟨i, hi⟩) := List.get?_eq_get hi
    rw [buildEntry, hget]
    have hke : (entry.any (fun p => p.1 == c)) = false :=
      hfresh c (List.mem_cons_self _ _)
    have hsa : sassign entry c (row.get ⟨i, hi⟩) =
        entry ++ [(c, row.get ⟨i, hi⟩)] := by
      rw [sassign, hke]
      rw [if_neg (by decide)]
    show buildEntry row (sassign entry c (row.get ⟨i, hi⟩)) (i + 1) cs =
      Except.ok (entry ++ (c :: cs).zip (row.drop i))
    rw [hsa]
    have hfresh2 : ∀ c2 ∈ cs,
        (((entry ++ [(c, row.get ⟨i, hi⟩)]).any (fun p => p.1 == c2))) = false := by
      intro c2 hc2
      rw [List.any_append]
      have h1 := hfresh c2 (List.mem_cons_of_mem _ hc2)
      have h2 : (([(c, row.get ⟨i, hi⟩)] :
          List (String × JVal)).any (fun p => p.1 == c2)) = false := by
        simp only [List.any_cons, List.any_nil, Bool.or_false]
        exact beq_eq_false_iff_ne.mpr (fun heq => hc (heq ▸ hc2))
      rw [h1, h2]
      rfl
    have hlen2 : (i + 1) + cs.length ≤ row.length := by
      simp only [List.length_cons] at hlen
      omega
    rw [ih (i + 1) (entry ++ [(c, row.get ⟨i, hi⟩)]) hcs hfresh2 hlen2]
    have hdrop : row.drop i = row.get ⟨i, hi⟩ :: row.drop (i + 1) :=
      List.drop_eq_get_cons hi
    rw [hdrop, List.zip_cons_cons, List.append_assoc]
    rfl

theorem convertRowsNoKeys_eq (columns : List String) (hnd : columns.Nodup) :
    ∀ (rows : List (List JVal)) (i : Nat) (acc : DDict),
      (∀ r ∈ rows, columns.length ≤ r.length) →
      (∀ p ∈ acc, ∃ j, j < i ∧ p.1 = JVal.num (Int.ofNat (j + 1))) →
      convertRowsNoKeys columns rows i acc =
        Except.ok (acc ++ (rows.enumFrom i).map (fun p =>
          (JVal.num (Int.ofNat (p.1 + 1)), entryToDVal (columns.zip p.2)))) := by
  intro rows
  induction rows with
  | nil => intro i acc _ _; simp [convertRowsNoKeys, List.enumFrom]
  | cons r rs ih =>
    intro i acc hlen hacc
    have hbe := buildEntry_eq r columns 0 [] hnd (fun c _ => rfl)
      (by have := hlen r (List.mem_cons_self _ _); omega)
    show (do
      let entry ← buildEntry r [] 0 columns
      convertRowsNoKeys columns rs (i + 1)
        (dassign acc (JVal.num (Int.ofNat (i + 1))) (entryToDVal entry))) = _
    rw [hbe]
    show convertRowsNoKeys columns rs (i + 1)
        (dassign acc (JVal.num (Int.ofNat (i + 1)))
          (entryToDVal ([] ++ columns.zip (r.drop 0)))) = _
    have hfresh : (acc.any (fun p =>
        JVal.beq p.1 (JVal.num (Int.ofNat (i + 1))))) = false := by
      rw [List.any_eq_false]
      intro p hp
      rcases hacc p hp with ⟨j, hj, hkey⟩
      rw [hkey]
      show ¬(JVal.beq (JVal.num (Int.ofNat (j + 1))) (JVal.num (Int.ofNat (i + 1))) = true)
      intro hcontr
      have h4 : j + 1 = i + 1 := Int.ofNat.inj (beq_iff_eq.mp hcontr)
      omega
    have hda : dassign acc (JVal.num (Int.ofNat (i + 1)))
        (entryToDVal ([] ++ columns.zip (r.drop 0))) =
        acc ++ [(JVal.num (Int.ofNat (i + 1)),
          entryToDVal ([] ++ columns.zip (r.drop 0)))] := by
      rw [dassign, hfresh]
      rw [if_neg (by decide)]
    rw [hda]
    rw [ih (i + 1) _ (fun r2 hr2 => hlen r2 (List.mem_cons_of_mem _ hr2)) ?hinv]
    case hinv =>
      intro p hp
      rcases List.mem_append.mp hp with hold | hnew
      · rcases hacc p hold with ⟨j, hj, hkey⟩
        exact ⟨j, by omega, hkey⟩
      · have hp2 : p = (JVal.num (Int.ofNat (i + 1)),
            entryToDVal ([] ++ columns.zip (r.drop 0))) := by simpa using hnew
        exact ⟨i, by omega, by rw [hp2]⟩
    rw [show (r :: rs).enumFrom i = (i, r) :: rs.enumFrom (i + 1) from rfl,
      List.map_cons, List.append_assoc]
    rfl

/-- C8: with `key_names = None`, the reshaped dict has exactly the
1-based row indices `1..n` as keys, in order, and entry `i` maps each
column name to row `i`'s value at that column's position (hypotheses: the
column names are distinct and every row supplies a value for every
column, which the claim's phrasing presupposes). -/
theorem convert_result_row_index_dict
    (columns : List String) (rows : List (List JVal))
    (hnd : columns.Nodup)
    (hlen : ∀ r ∈ rows, columns.length ≤ r.length) :
    SpirentTestCenterIQ.convert_result_to_dict
        { columns := columns, rows := some rows } none =
      Except.ok (rows.enum.map (fun p =>
        (JVal.num (Int.ofNat (p.1 + 1)), entryToDVal (columns.zip p.2)))) := by
  cases rows with
  | nil => rfl
  | cons r rs =>
    show convertRowsNoKeys columns (r :: rs) 0 [] = _
    rw [convertRowsNoKeys_eq columns hnd (r :: rs) 0 [] hlen
      (fun p hp => absurd hp (by simp))]
    rfl

theorem convert_result_row_index_dict_witness :
    SpirentTestCenterIQ.convert_result_to_dict
        { columns := ["a", "b"],
          rows := some [[JVal.num 1, JVal.num 2], [JVal.num 3, JVal.num 4]] } none =
      Except.ok
        [(JVal.num 1, DVal.dict [(JVal.str "a", DVal.leaf (JVal.num 1)),
            (JVal.str "b", DVal.leaf (JVal.num 2))]),
         (JVal.num 2, DVal.dict [(JVal.str "a", DVal.leaf (JVal.num 3)),
            (JVal.str "b", DVal.leaf (JVal.num 4))])] := by
  have h := convert_result_row_index_dict ["a", "b"]
    [[JVal.num 1, JVal.num 2], [JVal.num 3, JVal.num 4]]
    (by decide)
    (by
      intro r hr
      rcases List.mem_cons.mp hr with rfl | hr2
      · decide
      · rcases List.mem_cons.mp hr2 with rfl | hr3
        · decide
        · exact absurd hr3 (by simp))
  exact h.trans rfl

def qC6 : QueryDict :=
  match IqMultiQuery.get_query mqC6 false with
  | Except.ok q => q
  | Except.error _ => []

theorem query_dict_keys_witness :
    IqMultiQuery.get_query mqC6 false = Except.ok qC6 ∧
    qC6.map Prod.fst = ["alias", "filters", "groups", "orders", "limit",
      "pagination", "subqueries", "projections"] :=
  ⟨rfl, (query_dict_keys.2 mqC6 false qC6 rfl).1⟩
